import Mathlib

/-!
Verification development for the extract subcommand of mp4-util
(src/subcommand_extract.rs).

The Rust source is shallowly embedded below.  Machine integers are
modelled as natural numbers; arithmetic that the Rust program performs
on `u64`/`u32` values where wrap-around or saturation is semantically
possible is modelled with an explicit modulus (release-profile wrapping
semantics) or an explicit `min` (for `saturating_add`).

The sample-table accessor, sample references and the muxer come from
the external shiguredo_mp4 crate; they are modelled from the interface
contracts stated in the specification (marked in their doc comments).
-/

namespace Mp4Extract

/-- Modulus of the 64-bit unsigned machine integers used by the source. -/
def U64 : ℕ := 2 ^ 64

/-- Largest value of a 64-bit unsigned integer; initial minimum in the scan
at line 184 of subcommand_extract.rs. -/
def U64MAX : ℕ := 2 ^ 64 - 1

/-- Largest value of a 32-bit unsigned integer; saturation point of
NonZeroU32.saturating_add at line 240. -/
def U32MAX : ℕ := 2 ^ 32 - 1

/-- Wrapping u64 subtraction, for arguments below 2^64; models
release-profile `a - b` on u64 (line 193 of the source). -/
def u64sub (a b : ℕ) : ℕ := (a % U64 + (U64 - b % U64)) % U64

/-- Model of NonZeroU32.saturating_add(1) (line 240 of the source). -/
def satAdd1u32 (i : ℕ) : ℕ := min (i + 1) U32MAX

/-- Track handler kinds accepted by the extraction (line 84 of the source);
other handler types are skipped. -/
inductive TrackKind where
  | video
  | audio
deriving DecidableEq

/-- Modelled from the spec: one entry of a track's sample table as exposed
by the external accessor: decode timestamp (ticks), duration (ticks),
sync-sample flag, byte range in the source file, and the chunk's sample
entry (codec descriptor), modelled as an opaque numeric identifier. -/
structure SampleInfo where
  timestamp : ℕ
  duration : ℕ
  isSync : Bool
  dataOffset : ℕ
  dataSize : ℕ
  entryId : ℕ
deriving DecidableEq

/-- Modelled from the spec: `get_sample(index)` of the external sample
table accessor; indices are 1-based, out-of-range lookups return none. -/
def getSample (table : List SampleInfo) (i : ℕ) : Option SampleInfo :=
  if i = 0 then none else table[i - 1]?

/-- Auxiliary scan for `getSampleByTimestamp`, carrying the 1-based index. -/
def getSampleByTimestampAux (tick : ℕ) : List SampleInfo → ℕ → Option (ℕ × SampleInfo)
  | [], _ => none
  | s :: rest, i =>
      if tick < s.timestamp + s.duration then some (i, s)
      else getSampleByTimestampAux tick rest (i + 1)

/-- Modelled from the spec: `get_sample_by_timestamp(tick)` of the external
accessor returns the sample covering or immediately following the tick
(the first sample whose end lies strictly after the tick), or none when the
tick lies past the end of the track. -/
def getSampleByTimestamp (table : List SampleInfo) (tick : ℕ) : Option (ℕ × SampleInfo) :=
  getSampleByTimestampAux tick table 1

/-- Modelled from the spec: `sync_sample()` on a sample reference returns
the nearest synchronization sample at or before the given 1-based index,
or none when no sync sample precedes it. -/
def syncSample (table : List SampleInfo) : ℕ → Option (ℕ × SampleInfo)
  | 0 => none
  | i + 1 =>
      match getSample table (i + 1) with
      | none => none
      | some s => if s.isSync then some (i + 1, s) else syncSample table i

/-- Timestamp normalization to nanoseconds, embedding `normalize_timestamp`
(lines 304-306 of the source): `timestamp * 1_000_000_000 / timescale` in
u64 arithmetic (the multiplication wraps at 2^64 in a release build). -/
def normalize_timestamp (timestamp timescale : ℕ) : ℕ :=
  timestamp * 1000000000 % U64 / timescale

/-- Second-to-tick conversion of lines 95-96 of the source:
`(sec * timescale as f64) as u64`.  The f64-to-u64 cast truncates toward
zero (negative products become 0) and saturates at u64::MAX. -/
def toTick (sec : ℚ) (timescale : ℕ) : ℕ :=
  min (⌊sec * (timescale : ℚ)⌋.toNat) U64MAX

/-- Second-to-tick conversion as worded by the specification (§4.1
"Compute start_tick = round(start_sec * ts)"); stated only to be compared
against `toTick`, which embeds the source. -/
def toTickSpec (sec : ℚ) (timescale : ℕ) : ℕ :=
  (round (sec * (timescale : ℚ))).toNat

instance {ε α : Type} [DecidableEq ε] [DecidableEq α] : DecidableEq (Except ε α) := fun x y =>
  match x, y with
  | .error a, .error b =>
      if h : a = b then isTrue (h ▸ rfl)
      else isFalse fun hc => h (by injection hc)
  | .ok a, .ok b =>
      if h : a = b then isTrue (h ▸ rfl)
      else isFalse fun hc => h (by injection hc)
  | .error _, .ok _ => isFalse fun hc => Except.noConfusion hc
  | .ok _, .error _ => isFalse fun hc => Except.noConfusion hc

/-- Errors surfaced by the extract subcommand (the source reports them as
strings; each constructor names one distinct message). -/
inductive ExtractError where
  | startNegative
  | endNotAfterStart
  | sampleTableInvalid
  | noSampleAtStartTime
  | noPrecedingKeyframe
  | noSampleAtEndTime
  | noTracks
deriving DecidableEq

/-- Embedding of the struct TrackExtractInfo (lines 284-292 of the source);
the trak box handle is modelled by the track's sample table. -/
structure TrackExtractInfo where
  trackKind : TrackKind
  timescale : ℕ
  sampleEntry : ℕ
  startSampleIndex : ℕ
  endSampleIndex : ℕ
  startTimestamp : ℕ
  table : List SampleInfo
deriving DecidableEq

/-- End-sample lookup of lines 113-120 of the source: the sample covering or
following the end tick, falling back to the track's last sample
(`NonZeroU32::new(sample_count)` yields none exactly when the count is 0). -/
def findEndSample (table : List SampleInfo) (tick : ℕ) : Option (ℕ × SampleInfo) :=
  match getSampleByTimestamp table tick with
  | some p => some p
  | none =>
      if table.length = 0 then none
      else (getSample table table.length).map fun s => (table.length, s)

/-- Keyframe adjustment of lines 104-110 of the source: video tracks snap
the start sample to the nearest preceding synchronization sample, failing
with the no-preceding-keyframe error when none exists; audio tracks keep
the start sample. -/
def resolveStartSample (kind : TrackKind) (table : List SampleInfo)
    (p : ℕ × SampleInfo) : Except ExtractError (ℕ × SampleInfo) :=
  if kind = TrackKind.video then
    match syncSample table p.1 with
    | none => .error .noPrecedingKeyframe
    | some q => .ok q
  else .ok p

/-- Assembly of the per-track record (lines 122-133 of the source). -/
def mkTrackInfo (kind : TrackKind) (timescale : ℕ) (table : List SampleInfo)
    (actual : ℕ × SampleInfo) (endIdx : ℕ) : TrackExtractInfo :=
  { trackKind := kind
    timescale := timescale
    sampleEntry := actual.2.entryId
    startSampleIndex := actual.1
    endSampleIndex := endIdx
    startTimestamp := actual.2.timestamp
    table := table }

/-- End-sample lookup stage of the window computation (lines 112-133). -/
def computeTrackInfoEnd (kind : TrackKind) (timescale : ℕ) (table : List SampleInfo)
    (actual : ℕ × SampleInfo) (endTick : ℕ) : Except ExtractError TrackExtractInfo :=
  match findEndSample table endTick with
  | none => .error .noSampleAtEndTime
  | some q => .ok (mkTrackInfo kind timescale table actual q.1)

/-- Per-track window computation of lines 90-133 of the source: tick
conversion, start-sample lookup, keyframe snapping for video, end-sample
lookup with fallback, and collection of the per-track extraction record. -/
def computeTrackInfo (startSec endSec : ℚ) (kind : TrackKind) (timescale : ℕ)
    (table : List SampleInfo) : Except ExtractError TrackExtractInfo :=
  match getSampleByTimestamp table (toTick startSec timescale) with
  | none => .error .noSampleAtStartTime
  | some p =>
      match resolveStartSample kind table p with
      | .error e => .error e
      | .ok actual => computeTrackInfoEnd kind timescale table actual (toTick endSec timescale)

/-- One trak box of the input as far as the extraction reads it: the
handler kind (none models handler types other than vide/soun, which
line 87 of the source skips), the mdhd timescale, and the sample table. -/
structure RawTrack where
  handler : Option TrackKind
  timescale : ℕ
  table : List SampleInfo

/-- The track-collection loop of lines 81-134 of the source: skip tracks
with other handler types, compute each remaining track's window, and fail
on the first windowing error. -/
def collectTrackInfos (startSec endSec : ℚ) :
    List RawTrack → Except ExtractError (List TrackExtractInfo)
  | [] => .ok []
  | t :: rest =>
      match t.handler with
      | none => collectTrackInfos startSec endSec rest
      | some k =>
          match computeTrackInfo startSec endSec k t.timescale t.table with
          | .error e => .error e
          | .ok info =>
              match collectTrackInfos startSec endSec rest with
              | .error e => .error e
              | .ok infos => .ok (info :: infos)

/-- Embedding of the struct SampleIterator (lines 295-301 of the source):
per-track iteration state of the interleave loop.  The sample table is
carried as a 1-based lookup function. -/
structure Cursor where
  trackKind : TrackKind
  timescale : ℕ
  sampleEntry : ℕ
  endIndex : ℕ
  baseTimestamp : ℕ
  table : ℕ → Option SampleInfo
  currentIndex : ℕ
  isFirstSample : Bool

/-- A cursor is active (not exhausted) while its current index has not
passed its end index (line 187 of the source). -/
def Cursor.active (c : Cursor) : Prop := c.currentIndex ≤ c.endIndex

instance (c : Cursor) : Decidable c.active :=
  inferInstanceAs (Decidable (c.currentIndex ≤ c.endIndex))

/-- Normalized timestamp of a cursor's next sample as the scan at lines
188-195 computes it: u64 subtraction of the baseline, then
normalize_timestamp; none when the table lookup fails (which the source
turns into a panic via expect). -/
def Cursor.nextNorm (c : Cursor) : Option ℕ :=
  (c.table c.currentIndex).map fun s =>
    normalize_timestamp (u64sub s.timestamp c.baseTimestamp) c.timescale

/-- Panics the interleave loop can hit: the two expect("valid index")
calls (lines 191 and 211) and the unchecked slice at line 216. -/
inductive PanicKind where
  | invalidIndex
  | sliceOutOfBounds
deriving DecidableEq

/-- The cursor scan of lines 183-201 of the source: walk all iterators,
skip exhausted ones, keep the first index whose next normalized timestamp
is strictly below the minimum so far (initially u64::MAX). -/
def findMinAux : List Cursor → ℕ → Option ℕ → ℕ → Except PanicKind (Option ℕ)
  | [], _, best, _ => .ok best
  | c :: rest, idx, best, minT =>
      if c.currentIndex ≤ c.endIndex then
        match c.nextNorm with
        | none => .error .invalidIndex
        | some t =>
            if t < minT then findMinAux rest (idx + 1) (some idx) t
            else findMinAux rest (idx + 1) best minT
      else findMinAux rest (idx + 1) best minT

/-- Selection of the next track to emit (lines 183-201 of the source). -/
def findMin (cursors : List Cursor) : Except PanicKind (Option ℕ) :=
  findMinAux cursors 0 none U64MAX

/-- The record handed to the muxer for one emitted sample (the Sample
struct built at lines 222-234), extended with ghost fields (trackIdx,
srcTimestamp, baseTimestamp) that record which cursor emitted it and the
source timestamps, for stating the specification's properties. -/
structure Emitted where
  trackKind : TrackKind
  sampleEntry : Option ℕ
  keyframe : Bool
  timescale : ℕ
  duration : ℕ
  dataOffset : ℕ
  dataSize : ℕ
  trackIdx : ℕ
  srcTimestamp : ℕ
  baseTimestamp : ℕ
deriving DecidableEq

/-- Normalized timestamp of an emitted sample exactly as the claim words
it: (timestamp - baseline) * 1_000_000_000 / timescale, in exact
(unbounded) arithmetic. -/
def specNormalizedTs (e : Emitted) : ℕ :=
  (e.srcTimestamp - e.baseTimestamp) * 1000000000 / e.timescale

/-- Result of one pass of the interleave loop body. -/
inductive StepRes where
  | emit : Emitted → List Cursor → ℕ → StepRes
  | finished : StepRes
  | panicked : PanicKind → StepRes

/-- The record the loop body builds for the muxer at lines 222-234 of the
source (with the ghost fields filled from the selected cursor). -/
def emittedOf (idx : ℕ) (c : Cursor) (s : SampleInfo) (off : ℕ) : Emitted :=
  { trackKind := c.trackKind
    sampleEntry := if c.isFirstSample then some c.sampleEntry else none
    keyframe := s.isSync
    timescale := c.timescale
    duration := s.duration
    dataOffset := off
    dataSize := s.dataSize
    trackIdx := idx
    srcTimestamp := s.timestamp
    baseTimestamp := c.baseTimestamp }

/-- Cursor advancement of lines 240-241 of the source: saturating index
increment and clearing of the first-sample flag. -/
def advanceCursor (c : Cursor) : Cursor :=
  { c with currentIndex := satAdd1u32 c.currentIndex, isFirstSample := false }

/-- Payload slicing and emission (lines 213-241): the unchecked slice
file_data[off..off+size] panics unless the range lies inside the buffer;
otherwise the sample is written, handed to the muxer, and offset and
cursor advance (the offset addition wraps in u64). -/
def loopStepSlice (fileData : List ℕ) (cursors : List Cursor) (offset idx : ℕ)
    (c : Cursor) (s : SampleInfo) : StepRes :=
  if s.dataOffset + s.dataSize ≤ fileData.length then
    .emit (emittedOf idx c s offset) (cursors.set idx (advanceCursor c))
      ((offset + s.dataSize) % U64)
  else .panicked .sliceOutOfBounds

/-- Sample lookup of the selected cursor (lines 208-211); a failed lookup
is the expect("valid index") panic. -/
def loopStepTab (fileData : List ℕ) (cursors : List Cursor) (offset idx : ℕ)
    (c : Cursor) : StepRes :=
  match c.table c.currentIndex with
  | none => .panicked .invalidIndex
  | some s => loopStepSlice fileData cursors offset idx c s

/-- Indexing of the selected cursor (line 207). -/
def loopStepSel (fileData : List ℕ) (cursors : List Cursor) (offset idx : ℕ) : StepRes :=
  match cursors[idx]? with
  | none => .panicked .invalidIndex
  | some c => loopStepTab fileData cursors offset idx c

/-- One iteration of the interleave loop (lines 181-242 of the source):
select the cursor with the minimal normalized next timestamp (break when
none), then read, slice, emit and advance. -/
def loopStep (fileData : List ℕ) (cursors : List Cursor) (offset : ℕ) : StepRes :=
  match findMin cursors with
  | .error p => .panicked p
  | .ok none => .finished
  | .ok (some idx) => loopStepSel fileData cursors offset idx

/-- Outcome of running the interleave loop under a fuel bound: normal
exhaustion with the emitted samples and final offset, a panic, or fuel
running out before the loop broke. -/
inductive LoopOut where
  | done : List Emitted → ℕ → LoopOut
  | panicked : PanicKind → LoopOut
  | fuelOut : LoopOut
deriving DecidableEq

/-- The interleave loop of lines 181-242 of the source, as a fuelled
recursion over `loopStep`. -/
def runLoop (fileData : List ℕ) : ℕ → List Cursor → ℕ → LoopOut
  | 0, _, _ => .fuelOut
  | fuel + 1, cursors, offset =>
      match loopStep fileData cursors offset with
      | .finished => .done [] offset
      | .panicked p => .panicked p
      | .emit e cursors2 offset2 =>
          match runLoop fileData fuel cursors2 offset2 with
          | .done rest fin => .done (e :: rest) fin
          | other => other

/-- List-based sample table as a 1-based lookup function, as the cursors
carry it. -/
def tableFun (l : List SampleInfo) : ℕ → Option SampleInfo :=
  fun i => getSample l i

/-- Construction of one SampleIterator from its track's extraction record
(lines 165-178 of the source). -/
def mkCursor (info : TrackExtractInfo) : Cursor :=
  { trackKind := info.trackKind
    timescale := info.timescale
    sampleEntry := info.sampleEntry
    endIndex := info.endSampleIndex
    baseTimestamp := info.startTimestamp
    table := tableFun info.table
    currentIndex := info.startSampleIndex
    isFirstSample := true }

/-- File-system actions the extract subcommand performs, in order. -/
inductive IOEvent where
  | openInput
  | readInput
  | createOutput
  | writeInitial
  | writeSamples
  | patchOutput
deriving DecidableEq

/-- Outcome of the whole extract subcommand. -/
inductive ExtractOutcome where
  | ok : List Emitted → ℕ → ExtractOutcome
  | error : ExtractError → ExtractOutcome
  | panicked : PanicKind → ExtractOutcome
  | fuelOut : ExtractOutcome
deriving DecidableEq

/-- File operations performed before the windows are computed: the input
is opened and read into memory (lines 60-62 of the source). -/
def readEvents : List IOEvent := [IOEvent.openInput, IOEvent.readInput]

/-- File operations performed once the interleave loop starts: output
creation and the initial placeholder write (lines 156-160). -/
def writeEvents : List IOEvent :=
  readEvents ++ [IOEvent.createOutput, IOEvent.writeInitial]

/-- Muxing stage of `run` (lines 136-253 of the source): reject track-less
inputs, create the output file, write the placeholder bytes, start the
running offset at their length, drain the interleave loop, then patch. -/
def runExtractLoop (fileData initialBytes : List ℕ) (fuel : ℕ)
    (infos : List TrackExtractInfo) : List IOEvent × ExtractOutcome :=
  if infos.isEmpty then (readEvents, .error .noTracks)
  else
    match runLoop fileData fuel (infos.map mkCursor) initialBytes.length with
    | .done out fin =>
        (writeEvents ++ [IOEvent.writeSamples, IOEvent.patchOutput], .ok out fin)
    | .panicked p => (writeEvents, .panicked p)
    | .fuelOut => (writeEvents, .fuelOut)

/-- Windowing stage of `run`: compute all track windows, aborting on the
first windowing error (lines 81-134 of the source). -/
def runExtractValidated (startSec endSec : ℚ) (tracks : List RawTrack)
    (fileData initialBytes : List ℕ) (fuel : ℕ) : List IOEvent × ExtractOutcome :=
  match collectTrackInfos startSec endSec tracks with
  | .error e => (readEvents, .error e)
  | .ok infos => runExtractLoop fileData initialBytes fuel infos

/-- Embedding of `run` (lines 33-281 of the source) from input validation
onward: validate the time range before any file access, then read and
decode the input (its decoded track list is a parameter, decoding being
external), compute all windows, and run the muxing stage.  The returned
event list records which file operations were performed. -/
def runExtract (startSec endSec : ℚ) (tracks : List RawTrack) (fileData : List ℕ)
    (initialBytes : List ℕ) (fuel : ℕ) : List IOEvent × ExtractOutcome :=
  if startSec < 0 then ([], .error .startNegative)
  else if endSec ≤ startSec then ([], .error .endNotAfterStart)
  else runExtractValidated startSec endSec tracks fileData initialBytes fuel

/-! ### Arithmetic facts about the embedded machine operations -/

lemma U64_pos : 0 < U64 := by norm_num [U64]

/-- A wrapped product of the form t * 10^9 mod 2^64, divided by any
timescale, never reaches u64::MAX: for timescale 1 the wrapped product is
divisible by 512 while u64::MAX is odd, and for larger timescales the
quotient is at most half of u64::MAX. -/
lemma normalize_lt_u64max (t ts : ℕ) : normalize_timestamp t ts < U64MAX := by
  unfold normalize_timestamp
  rcases Nat.lt_or_ge ts 2 with hts | hts
  · interval_cases ts
    · simp only [Nat.div_zero, U64MAX]
      norm_num
    · rw [Nat.div_one]
      have hdvd : (512 : ℕ) ∣ t * 1000000000 % U64 := by
        apply (Nat.dvd_mod_iff (by norm_num [U64])).mpr
        exact ⟨t * 1953125, by ring⟩
      have hlt : t * 1000000000 % U64 < U64 := Nat.mod_lt _ U64_pos
      rcases Nat.lt_or_ge (t * 1000000000 % U64) U64MAX with h | h
      · exact h
      · exfalso
        have heq : t * 1000000000 % U64 = U64MAX := by
          have : U64MAX + 1 = U64 := by norm_num [U64, U64MAX]
          omega
        rw [heq] at hdvd
        have : ¬ (512 : ℕ) ∣ U64MAX := by decide
        exact this hdvd
  · calc t * 1000000000 % U64 / ts ≤ t * 1000000000 % U64 / 2 :=
          Nat.div_le_div_left hts (by norm_num)
    _ ≤ (U64 - 1) / 2 := Nat.div_le_div_right (by
          have := Nat.mod_lt (t * 1000000000) U64_pos; omega)
    _ < U64MAX := by norm_num [U64, U64MAX]

/-- Wrapping u64 subtraction agrees with exact subtraction when the
subtrahend is no larger and the minuend is in range. -/
lemma u64sub_eq_sub {a b : ℕ} (hba : b ≤ a) (ha : a < U64) : u64sub a b = a - b := by
  unfold u64sub
  have hb : b < U64 := lt_of_le_of_lt hba ha
  rw [Nat.mod_eq_of_lt ha, Nat.mod_eq_of_lt hb]
  have h1 : a + (U64 - b) = (a - b) + U64 := by omega
  rw [h1, Nat.add_mod_right, Nat.mod_eq_of_lt (by omega)]

/-- Saturating increment is an exact increment strictly below the
saturation point. -/
lemma satAdd1u32_eq {i : ℕ} (h : i < U32MAX) : satAdd1u32 i = i + 1 := by
  unfold satAdd1u32; omega

lemma satAdd1u32_ge_self {i : ℕ} (h : i ≤ U32MAX) : i ≤ satAdd1u32 i := by
  unfold satAdd1u32; omega

lemma satAdd1u32_le_u32max (i : ℕ) : satAdd1u32 i ≤ U32MAX ∨ satAdd1u32 i = i + 1 := by
  unfold satAdd1u32; omega

/-! ### Characterization of the minimum scan (lines 183-201) -/

/-- Scan step: an exhausted cursor is skipped. -/
lemma findMinAux_cons_inactive {c : Cursor} {rest : List Cursor} {idx : ℕ}
    {best : Option ℕ} {minT : ℕ} (h : ¬c.currentIndex ≤ c.endIndex) :
    findMinAux (c :: rest) idx best minT = findMinAux rest (idx + 1) best minT := by
  simp only [findMinAux, if_neg h]

/-- Scan step: an active cursor with a failed table lookup panics. -/
lemma findMinAux_cons_bad {c : Cursor} {rest : List Cursor} {idx : ℕ}
    {best : Option ℕ} {minT : ℕ} (h : c.currentIndex ≤ c.endIndex)
    (h2 : c.nextNorm = none) :
    findMinAux (c :: rest) idx best minT = .error .invalidIndex := by
  simp only [findMinAux, if_pos h, h2]

/-- Scan step: an active cursor strictly below the running minimum becomes
the new best candidate. -/
lemma findMinAux_cons_lt {c : Cursor} {rest : List Cursor} {idx : ℕ}
    {best : Option ℕ} {minT t : ℕ} (h : c.currentIndex ≤ c.endIndex)
    (h2 : c.nextNorm = some t) (h3 : t < minT) :
    findMinAux (c :: rest) idx best minT = findMinAux rest (idx + 1) (some idx) t := by
  simp only [findMinAux, if_pos h, h2, if_pos h3]

/-- Scan step: an active cursor at or above the running minimum leaves the
accumulator unchanged. -/
lemma findMinAux_cons_ge {c : Cursor} {rest : List Cursor} {idx : ℕ}
    {best : Option ℕ} {minT t : ℕ} (h : c.currentIndex ≤ c.endIndex)
    (h2 : c.nextNorm = some t) (h3 : ¬t < minT) :
    findMinAux (c :: rest) idx best minT = findMinAux rest (idx + 1) best minT := by
  simp only [findMinAux, if_pos h, h2, if_neg h3]

/-- A cursor whose next-sample lookup fails while it is still active makes
the scan panic, no matter the accumulator. -/
lemma findMinAux_error_of_bad (cs : List Cursor) :
    ∀ (idx : ℕ) (best : Option ℕ) (minT : ℕ) (c : Cursor), c ∈ cs → c.active →
      c.table c.currentIndex = none →
      ∃ p, findMinAux cs idx best minT = .error p := by
  induction cs with
  | nil => intro _ _ _ _ h; cases h
  | cons c0 rest ih =>
      intro idx best minT c hmem hact htab
      rcases List.mem_cons.mp hmem with rfl | hmem
      · have hnn : c.nextNorm = none := by
          unfold Cursor.nextNorm; rw [htab]; rfl
        exact ⟨.invalidIndex, findMinAux_cons_bad hact hnn⟩
      · by_cases h0 : c0.currentIndex ≤ c0.endIndex
        · cases hnn : c0.nextNorm with
          | none => exact ⟨.invalidIndex, findMinAux_cons_bad h0 hnn⟩
          | some t =>
              by_cases hlt : t < minT
              · rw [findMinAux_cons_lt h0 hnn hlt]
                exact ih _ _ _ c hmem hact htab
              · rw [findMinAux_cons_ge h0 hnn hlt]
                exact ih _ _ _ c hmem hact htab
        · rw [findMinAux_cons_inactive h0]
          exact ih _ _ _ c hmem hact htab

/-- With a some-accumulator the scan can no longer return "no cursor". -/
lemma findMinAux_ok_none_best (cs : List Cursor) :
    ∀ (idx : ℕ) (b : ℕ) (minT : ℕ),
      findMinAux cs idx (some b) minT = .ok none → False := by
  induction cs with
  | nil => intro idx b minT h; simp [findMinAux] at h
  | cons c0 rest ih =>
      intro idx b minT h
      by_cases h0 : c0.currentIndex ≤ c0.endIndex
      · cases hnn : c0.nextNorm with
        | none => rw [findMinAux_cons_bad h0 hnn] at h; cases h
        | some t =>
            by_cases hlt : t < minT
            · rw [findMinAux_cons_lt h0 hnn hlt] at h; exact ih _ _ _ h
            · rw [findMinAux_cons_ge h0 hnn hlt] at h; exact ih _ _ _ h
      · rw [findMinAux_cons_inactive h0] at h; exact ih _ _ _ h

/-- If the scan returns "no cursor", every active cursor's next normalized
timestamp is at least the running minimum. -/
lemma findMinAux_ok_none (cs : List Cursor) :
    ∀ (idx : ℕ) (best : Option ℕ) (minT : ℕ),
      findMinAux cs idx best minT = .ok none →
      ∀ (k : ℕ) (c : Cursor) (t : ℕ), cs[k]? = some c → c.active →
        c.nextNorm = some t → minT ≤ t := by
  induction cs with
  | nil => intro idx best minT _ k c t hk; simp at hk
  | cons c0 rest ih =>
      intro idx best minT h k c t hk hact hnn
      by_cases h0 : c0.currentIndex ≤ c0.endIndex
      · cases hnn0 : c0.nextNorm with
        | none => rw [findMinAux_cons_bad h0 hnn0] at h; cases h
        | some t0 =>
            by_cases hlt : t0 < minT
            · rw [findMinAux_cons_lt h0 hnn0 hlt] at h
              exact absurd h (findMinAux_ok_none_best rest _ _ _)
            · rw [findMinAux_cons_ge h0 hnn0 hlt] at h
              cases k with
              | zero =>
                  rw [List.getElem?_cons_zero] at hk
                  cases hk
                  rw [hnn0] at hnn; cases hnn
                  omega
              | succ k => exact ih _ _ _ h k c t (by simpa using hk) hact hnn
      · rw [findMinAux_cons_inactive h0] at h
        cases k with
        | zero =>
            rw [List.getElem?_cons_zero] at hk
            cases hk
            exact absurd hact h0
        | succ k => exact ih _ _ _ h k c t (by simpa using hk) hact hnn

/-- Full characterization of a successful selection: the result is either
the unbeaten accumulator, or the position of the first cursor in the
suffix realizing a value strictly below the running minimum, minimal
among the suffix and strictly below every earlier candidate. -/
lemma findMinAux_ok_some (cs : List Cursor) :
    ∀ (idx : ℕ) (best : Option ℕ) (minT : ℕ) (r : ℕ),
      findMinAux cs idx best minT = .ok (some r) →
      (best = some r ∧
        ∀ (k : ℕ) (c : Cursor) (t : ℕ), cs[k]? = some c → c.active →
          c.nextNorm = some t → minT ≤ t) ∨
      (∃ (k : ℕ) (c : Cursor) (t : ℕ), cs[k]? = some c ∧ r = idx + k ∧ c.active ∧
        c.nextNorm = some t ∧ t < minT ∧
        (∀ (k' : ℕ) (c' : Cursor) (t' : ℕ), k' < k → cs[k']? = some c' → c'.active →
          c'.nextNorm = some t' → t < t') ∧
        (∀ (k' : ℕ) (c' : Cursor) (t' : ℕ), k < k' → cs[k']? = some c' → c'.active →
          c'.nextNorm = some t' → t ≤ t')) := by
  induction cs with
  | nil =>
      intro idx best minT r h
      simp only [findMinAux] at h
      cases h
      exact .inl ⟨rfl, by intro k c t hk; simp at hk⟩
  | cons c0 rest ih =>
      intro idx best minT r h
      by_cases h0 : c0.currentIndex ≤ c0.endIndex
      · cases hnn0 : c0.nextNorm with
        | none => rw [findMinAux_cons_bad h0 hnn0] at h; cases h
        | some t0 =>
            by_cases hlt : t0 < minT
            · rw [findMinAux_cons_lt h0 hnn0 hlt] at h
              rcases ih _ _ _ _ h with ⟨hbest, hall⟩ | ⟨k, c, t, hk, hr, hact, hnn, hlt2, hbefore, hafter⟩
              · -- the head cursor became the final best
                cases hbest
                refine .inr ⟨0, c0, t0, List.getElem?_cons_zero, by omega, h0, hnn0, hlt, ?_, ?_⟩
                · intro k' c' t' hk'; omega
                · intro k' c' t' hk' hget hact' hnn'
                  cases k' with
                  | zero => omega
                  | succ k' => exact hall k' c' t' (by simpa using hget) hact' hnn'
              · -- a later cursor beat the head cursor
                refine .inr ⟨k + 1, c, t, by simpa using hk, by omega, hact, hnn, by omega, ?_, ?_⟩
                · intro k' c' t' hk' hget hact' hnn'
                  cases k' with
                  | zero =>
                      rw [List.getElem?_cons_zero] at hget
                      cases hget
                      rw [hnn0] at hnn'; cases hnn'
                      omega
                  | succ k' => exact hbefore k' c' t' (by omega) (by simpa using hget) hact' hnn'
                · intro k' c' t' hk' hget hact' hnn'
                  cases k' with
                  | zero => omega
                  | succ k' => exact hafter k' c' t' (by omega) (by simpa using hget) hact' hnn'
            · rw [findMinAux_cons_ge h0 hnn0 hlt] at h
              rcases ih _ _ _ _ h with ⟨hbest, hall⟩ | ⟨k, c, t, hk, hr, hact, hnn, hlt2, hbefore, hafter⟩
              · refine .inl ⟨hbest, ?_⟩
                intro k c t hk hact hnn
                cases k with
                | zero =>
                    rw [List.getElem?_cons_zero] at hk
                    cases hk
                    rw [hnn0] at hnn; cases hnn
                    omega
                | succ k => exact hall k c t (by simpa using hk) hact hnn
              · refine .inr ⟨k + 1, c, t, by simpa using hk, by omega, hact, hnn, hlt2, ?_, ?_⟩
                · intro k' c' t' hk' hget hact' hnn'
                  cases k' with
                  | zero =>
                      rw [List.getElem?_cons_zero] at hget
                      cases hget
                      rw [hnn0] at hnn'; cases hnn'
                      omega
                  | succ k' => exact hbefore k' c' t' (by omega) (by simpa using hget) hact' hnn'
                · intro k' c' t' hk' hget hact' hnn'
                  cases k' with
                  | zero => omega
                  | succ k' => exact hafter k' c' t' (by omega) (by simpa using hget) hact' hnn'
      · rw [findMinAux_cons_inactive h0] at h
        rcases ih _ _ _ _ h with ⟨hbest, hall⟩ | ⟨k, c, t, hk, hr, hact, hnn, hlt2, hbefore, hafter⟩
        · refine .inl ⟨hbest, ?_⟩
          intro k c t hk hact hnn
          cases k with
          | zero =>
              rw [List.getElem?_cons_zero] at hk
              cases hk
              exact absurd hact h0
          | succ k => exact hall k c t (by simpa using hk) hact hnn
        · refine .inr ⟨k + 1, c, t, by simpa using hk, by omega, hact, hnn, hlt2, ?_, ?_⟩
          · intro k' c' t' hk' hget hact' hnn'
            cases k' with
            | zero =>
                rw [List.getElem?_cons_zero] at hget
                cases hget
                exact absurd hact' h0
            | succ k' => exact hbefore k' c' t' (by omega) (by simpa using hget) hact' hnn'
          · intro k' c' t' hk' hget hact' hnn'
            cases k' with
            | zero => omega
            | succ k' => exact hafter k' c' t' (by omega) (by simpa using hget) hact' hnn'

/-- Characterization of the selection made at lines 183-201 of the source:
the selected cursor is active, realizes the minimum normalized next
timestamp over all active cursors, and strictly beats every earlier
(first-registered) active cursor. -/
lemma findMin_spec {cursors : List Cursor} {r : ℕ}
    (h : findMin cursors = .ok (some r)) :
    ∃ (c : Cursor) (t : ℕ), cursors[r]? = some c ∧ c.active ∧ c.nextNorm = some t ∧
      t < U64MAX ∧
      (∀ (k' : ℕ) (c' : Cursor) (t' : ℕ), k' < r → cursors[k']? = some c' → c'.active →
        c'.nextNorm = some t' → t < t') ∧
      (∀ (k' : ℕ) (c' : Cursor) (t' : ℕ), r < k' → cursors[k']? = some c' → c'.active →
        c'.nextNorm = some t' → t ≤ t') := by
  rcases findMinAux_ok_some cursors 0 none U64MAX r h with ⟨hbest, _⟩ | ⟨k, c, t, hk, hr, hact, hnn, hlt, hbefore, hafter⟩
  · cases hbest
  · have hk0 : r = k := by omega
    subst hk0
    exact ⟨c, t, hk, hact, hnn, hlt, hbefore, hafter⟩

/-- If the scan reports every cursor exhausted while some active cursor has
a well-defined next sample, that contradicts the u64::MAX bound of the
normalized timestamps: active cursors with valid lookups are always
selectable. -/
lemma findMin_ok_none {cursors : List Cursor}
    (h : findMin cursors = .ok none) :
    ∀ (k : ℕ) (c : Cursor), cursors[k]? = some c → ¬c.active := by
  intro k c hk hact
  cases htab : c.table c.currentIndex with
  | none =>
      have hmem : c ∈ cursors := by
        have := List.getElem?_eq_some_iff.mp hk
        rcases this with ⟨hlt, hget⟩
        exact hget ▸ List.getElem_mem hlt
      rcases findMinAux_error_of_bad cursors 0 none U64MAX c hmem hact htab with ⟨p, hp⟩
      rw [findMin] at h
      rw [hp] at h
      cases h
  | some s =>
      have hnn : c.nextNorm = some (normalize_timestamp (u64sub s.timestamp c.baseTimestamp) c.timescale) := by
        unfold Cursor.nextNorm; rw [htab]; rfl
      have hge := findMinAux_ok_none cursors 0 none U64MAX h k c _ hk hact hnn
      exact absurd hge (not_le.mpr (normalize_lt_u64max _ _))

/-- When every cursor is exhausted the scan reports completion. -/
lemma findMin_all_inactive {cursors : List Cursor}
    (h : ∀ c ∈ cursors, ¬c.active) : findMin cursors = .ok none := by
  have aux : ∀ (cs : List Cursor) (idx : ℕ) (minT : ℕ), (∀ c ∈ cs, ¬c.active) →
      findMinAux cs idx none minT = .ok none := by
    intro cs
    induction cs with
    | nil => intro idx minT _; rfl
    | cons c0 rest ih =>
        intro idx minT hall
        rw [findMinAux_cons_inactive (hall c0 (by simp))]
        exact ih _ _ (fun c hc => hall c (by simp [hc]))
  exact aux cursors 0 U64MAX h

/-- When every active cursor has a valid next sample, the scan does not
panic. -/
lemma findMin_no_error {cursors : List Cursor}
    (h : ∀ c ∈ cursors, c.active → (c.table c.currentIndex).isSome) :
    ∃ r, findMin cursors = .ok r := by
  have aux : ∀ (cs : List Cursor), (∀ c ∈ cs, c.active → (c.table c.currentIndex).isSome) →
      ∀ (idx : ℕ) (best : Option ℕ) (minT : ℕ), ∃ r, findMinAux cs idx best minT = .ok r := by
    intro cs
    induction cs with
    | nil => intro _ idx best minT; exact ⟨best, rfl⟩
    | cons c0 rest ih =>
        intro hall idx best minT
        have hrest : ∀ c ∈ rest, c.active → (c.table c.currentIndex).isSome :=
          fun c hc => hall c (by simp [hc])
        by_cases h0 : c0.currentIndex ≤ c0.endIndex
        · cases hnn : c0.nextNorm with
          | none =>
              exfalso
              have := hall c0 (by simp) h0
              unfold Cursor.nextNorm at hnn
              cases htab : c0.table c0.currentIndex with
              | none => rw [htab] at this; cases this
              | some s => rw [htab] at hnn; cases hnn
          | some t =>
              by_cases hlt : t < minT
              · rw [findMinAux_cons_lt h0 hnn hlt]; exact ih hrest _ _ _
              · rw [findMinAux_cons_ge h0 hnn hlt]; exact ih hrest _ _ _
        · rw [findMinAux_cons_inactive h0]; exact ih hrest _ _ _
  exact aux cursors h 0 none U64MAX

/-- Combination: with valid lookups and at least one active cursor, the
scan selects some cursor. -/
lemma findMin_selects {cursors : List Cursor}
    (hvalid : ∀ c ∈ cursors, c.active → (c.table c.currentIndex).isSome)
    (hactive : ∃ (k : ℕ) (c : Cursor), cursors[k]? = some c ∧ c.active) :
    ∃ r, findMin cursors = .ok (some r) := by
  rcases findMin_no_error hvalid with ⟨r, hr⟩
  cases r with
  | none =>
      rcases hactive with ⟨k, c, hk, hact⟩
      exact absurd hact (findMin_ok_none hr k c hk)
  | some i => exact ⟨i, hr⟩

/-! ### The loop body -/

/-- Equation: a panicking scan propagates. -/
lemma loopStep_eq_error {fd : List ℕ} {cs : List Cursor} {off : ℕ} {p : PanicKind}
    (hfm : findMin cs = .error p) : loopStep fd cs off = .panicked p := by
  unfold loopStep; rw [hfm]

/-- Equation: an empty selection breaks the loop. -/
lemma loopStep_eq_finished {fd : List ℕ} {cs : List Cursor} {off : ℕ}
    (hfm : findMin cs = .ok none) : loopStep fd cs off = .finished := by
  unfold loopStep; rw [hfm]

/-- Equation: a selection proceeds to cursor indexing. -/
lemma loopStep_eq_sel {fd : List ℕ} {cs : List Cursor} {off idx : ℕ}
    (hfm : findMin cs = .ok (some idx)) :
    loopStep fd cs off = loopStepSel fd cs off idx := by
  unfold loopStep; rw [hfm]

/-- Equation: cursor indexing proceeds to the table lookup. -/
lemma loopStepSel_eq_tab {fd : List ℕ} {cs : List Cursor} {off idx : ℕ} {c : Cursor}
    (hget : cs[idx]? = some c) :
    loopStepSel fd cs off idx = loopStepTab fd cs off idx c := by
  unfold loopStepSel; rw [hget]

/-- Equation: the table lookup proceeds to slicing. -/
lemma loopStepTab_eq_slice {fd : List ℕ} {cs : List Cursor} {off idx : ℕ}
    {c : Cursor} {s : SampleInfo} (htab : c.table c.currentIndex = some s) :
    loopStepTab fd cs off idx c = loopStepSlice fd cs off idx c s := by
  unfold loopStepTab; rw [htab]

/-- Forward direction: the loop body emits when the scan selects a cursor
whose sample exists and fits in the source buffer. -/
lemma loopStep_emits {fd : List ℕ} {cs : List Cursor} {off : ℕ}
    {idx : ℕ} {c : Cursor} {s : SampleInfo}
    (hfm : findMin cs = .ok (some idx)) (hget : cs[idx]? = some c)
    (htab : c.table c.currentIndex = some s)
    (hb : s.dataOffset + s.dataSize ≤ fd.length) :
    loopStep fd cs off =
      .emit (emittedOf idx c s off) (cs.set idx (advanceCursor c))
        ((off + s.dataSize) % U64) := by
  rw [loopStep_eq_sel hfm, loopStepSel_eq_tab hget, loopStepTab_eq_slice htab]
  unfold loopStepSlice
  rw [if_pos hb]

/-- Inversion of an emitting loop iteration. -/
lemma loopStep_emit_inv {fd : List ℕ} {cs : List Cursor} {off : ℕ} {e : Emitted}
    {cs2 : List Cursor} {off2 : ℕ} (h : loopStep fd cs off = .emit e cs2 off2) :
    ∃ (idx : ℕ) (c : Cursor) (s : SampleInfo),
      findMin cs = .ok (some idx) ∧ cs[idx]? = some c ∧
      c.table c.currentIndex = some s ∧ s.dataOffset + s.dataSize ≤ fd.length ∧
      e = emittedOf idx c s off ∧
      cs2 = cs.set idx (advanceCursor c) ∧
      off2 = (off + s.dataSize) % U64 := by
  cases hfm : findMin cs with
  | error p => rw [loopStep_eq_error hfm] at h; cases h
  | ok r =>
      cases r with
      | none => rw [loopStep_eq_finished hfm] at h; cases h
      | some idx =>
          rw [loopStep_eq_sel hfm] at h
          cases hget : cs[idx]? with
          | none => rw [loopStepSel] at h; rw [hget] at h; cases h
          | some c =>
              rw [loopStepSel_eq_tab hget] at h
              cases htab : c.table c.currentIndex with
              | none => rw [loopStepTab] at h; rw [htab] at h; cases h
              | some s =>
                  rw [loopStepTab_eq_slice htab] at h
                  unfold loopStepSlice at h
                  by_cases hb : s.dataOffset + s.dataSize ≤ fd.length
                  · rw [if_pos hb] at h
                    injection h with h1 h2 h3
                    exact ⟨idx, c, s, rfl, hget, htab, hb, h1.symm, h2.symm, h3.symm⟩
                  · rw [if_neg hb] at h; cases h

/-- The loop body finishes exactly when the scan reports all cursors
exhausted. -/
lemma loopStep_finished_inv {fd : List ℕ} {cs : List Cursor} {off : ℕ}
    (h : loopStep fd cs off = .finished) : findMin cs = .ok none := by
  cases hfm : findMin cs with
  | error p => rw [loopStep_eq_error hfm] at h; cases h
  | ok r =>
      cases r with
      | none => rfl
      | some idx =>
          rw [loopStep_eq_sel hfm] at h
          cases hget : cs[idx]? with
          | none => rw [loopStepSel] at h; rw [hget] at h; cases h
          | some c =>
              rw [loopStepSel_eq_tab hget] at h
              cases htab : c.table c.currentIndex with
              | none => rw [loopStepTab] at h; rw [htab] at h; cases h
              | some s =>
                  rw [loopStepTab_eq_slice htab] at h
                  unfold loopStepSlice at h
                  by_cases hb : s.dataOffset + s.dataSize ≤ fd.length
                  · rw [if_pos hb] at h; cases h
                  · rw [if_neg hb] at h; cases h

/-- Unfolding of a successful loop run. -/
lemma runLoop_done_inv {fd : List ℕ} {n : ℕ} {cs : List Cursor} {off : ℕ}
    {out : List Emitted} {fin : ℕ}
    (h : runLoop fd (n + 1) cs off = .done out fin) :
    (loopStep fd cs off = .finished ∧ out = [] ∧ fin = off) ∨
    ∃ (e : Emitted) (cs2 : List Cursor) (off2 : ℕ) (rest : List Emitted),
      loopStep fd cs off = .emit e cs2 off2 ∧
      runLoop fd n cs2 off2 = .done rest fin ∧ out = e :: rest := by
  rw [runLoop] at h
  cases hstep : loopStep fd cs off with
  | finished =>
      rw [hstep] at h
      injection h with h1 h2
      exact .inl ⟨rfl, h1.symm, h2.symm⟩
  | panicked p => rw [hstep] at h; cases h
  | emit e cs2 off2 =>
      rw [hstep] at h
      have h2 : (match runLoop fd n cs2 off2 with
          | LoopOut.done rest fin2 => LoopOut.done (e :: rest) fin2
          | o => o) = LoopOut.done out fin := h
      cases hrec : runLoop fd n cs2 off2 with
      | done rest fin2 =>
          rw [hrec] at h2
          injection h2 with h3 h4
          cases h4
          exact .inr ⟨e, cs2, off2, rest, rfl, hrec, h3.symm⟩
      | panicked p => rw [hrec] at h2; cases h2
      | fuelOut => rw [hrec] at h2; cases h2

/-- Rewriting a loop run one emitting step forward. -/
lemma runLoop_succ_of_emit {fd : List ℕ} {n : ℕ} {cs : List Cursor} {off : ℕ}
    {e : Emitted} {cs2 : List Cursor} {off2 : ℕ}
    (h : loopStep fd cs off = .emit e cs2 off2) :
    runLoop fd (n + 1) cs off =
      match runLoop fd n cs2 off2 with
      | .done rest fin => .done (e :: rest) fin
      | o => o := by
  rw [runLoop, h]

/-- Rewriting a loop run that breaks immediately. -/
lemma runLoop_succ_of_finished {fd : List ℕ} {n : ℕ} {cs : List Cursor} {off : ℕ}
    (h : loopStep fd cs off = .finished) :
    runLoop fd (n + 1) cs off = .done [] off := by
  rw [runLoop, h]

/-! ### Window validity and panic freedom -/

/-- Precondition of claim C10 for one cursor: every sample of the
remaining window exists in the table and its byte range
[data_offset, data_offset + data_size) lies within the source buffer;
the current index is a u32 value. -/
def WindowSafe (fd : List ℕ) (c : Cursor) : Prop :=
  c.currentIndex ≤ U32MAX ∧
  ∀ i, c.currentIndex ≤ i → i ≤ c.endIndex →
    ∃ s, c.table i = some s ∧ s.dataOffset + s.dataSize ≤ fd.length

/-- Advancing a cursor shrinks its window, so window safety is stable. -/
lemma windowSafe_advance {fd : List ℕ} {c : Cursor} (h : WindowSafe fd c) :
    WindowSafe fd (advanceCursor c) := by
  obtain ⟨hle, hall⟩ := h
  refine ⟨?_, ?_⟩
  · show satAdd1u32 c.currentIndex ≤ U32MAX
    unfold satAdd1u32; omega
  · intro i h1 h2
    have hge := satAdd1u32_ge_self hle
    exact hall i (le_trans hge h1) h2

/-- The updated cursor list after an emission stays window safe. -/
lemma windowSafe_set {fd : List ℕ} {cs : List Cursor} {idx : ℕ} {c : Cursor}
    (hall : ∀ x ∈ cs, WindowSafe fd x) (hget : cs[idx]? = some c) :
    ∀ x ∈ cs.set idx (advanceCursor c), WindowSafe fd x := by
  intro x hx
  rcases List.mem_or_eq_of_mem_set hx with hmem | rfl
  · exact hall x hmem
  · have hcmem : c ∈ cs := by
      rcases List.getElem?_eq_some_iff.mp hget with ⟨hlt, hg⟩
      exact hg ▸ List.getElem_mem hlt
    exact windowSafe_advance (hall c hcmem)

/-- Inversion of a panicking loop iteration. -/
lemma loopStep_panicked_inv {fd : List ℕ} {cs : List Cursor} {off : ℕ} {p : PanicKind}
    (h : loopStep fd cs off = .panicked p) :
    findMin cs = .error p ∨
    (∃ idx, findMin cs = .ok (some idx) ∧ cs[idx]? = none ∧ p = .invalidIndex) ∨
    (∃ idx c, findMin cs = .ok (some idx) ∧ cs[idx]? = some c ∧
      c.table c.currentIndex = none ∧ p = .invalidIndex) ∨
    (∃ idx c s, findMin cs = .ok (some idx) ∧ cs[idx]? = some c ∧
      c.table c.currentIndex = some s ∧ ¬(s.dataOffset + s.dataSize ≤ fd.length) ∧
      p = .sliceOutOfBounds) := by
  cases hfm : findMin cs with
  | error q =>
      rw [loopStep_eq_error hfm] at h
      injection h with h1
      exact .inl (by rw [h1])
  | ok r =>
      cases r with
      | none => rw [loopStep_eq_finished hfm] at h; cases h
      | some idx =>
          rw [loopStep_eq_sel hfm] at h
          cases hget : cs[idx]? with
          | none =>
              rw [loopStepSel] at h; rw [hget] at h
              injection h with h1
              exact .inr (.inl ⟨idx, rfl, hget, h1.symm⟩)
          | some c =>
              rw [loopStepSel_eq_tab hget] at h
              cases htab : c.table c.currentIndex with
              | none =>
                  rw [loopStepTab] at h; rw [htab] at h
                  injection h with h1
                  exact .inr (.inr (.inl ⟨idx, c, rfl, hget, htab, h1.symm⟩))
              | some s =>
                  rw [loopStepTab_eq_slice htab] at h
                  unfold loopStepSlice at h
                  by_cases hb : s.dataOffset + s.dataSize ≤ fd.length
                  · rw [if_pos hb] at h; cases h
                  · rw [if_neg hb] at h
                    injection h with h1
                    exact .inr (.inr (.inr ⟨idx, c, s, rfl, hget, htab, hb, h1.symm⟩))

/-- Window safety of all cursors means every active cursor's lookup
succeeds. -/
lemma windowSafe_lookup {fd : List ℕ} {cs : List Cursor}
    (hall : ∀ x ∈ cs, WindowSafe fd x) :
    ∀ c ∈ cs, c.active → (c.table c.currentIndex).isSome := by
  intro c hc hact
  rcases (hall c hc).2 c.currentIndex le_rfl hact with ⟨s, hs, _⟩
  rw [hs]; rfl

/-- Under window safety the loop body never panics. -/
lemma loopStep_not_panicked {fd : List ℕ} {cs : List Cursor} {off : ℕ} {p : PanicKind}
    (hall : ∀ x ∈ cs, WindowSafe fd x) :
    loopStep fd cs off ≠ .panicked p := by
  intro h
  rcases loopStep_panicked_inv h with herr | ⟨idx, hfm, hget, _⟩ |
      ⟨idx, c, hfm, hget, htab, _⟩ | ⟨idx, c, s, hfm, hget, htab, hb, _⟩
  · rcases findMin_no_error (windowSafe_lookup hall) with ⟨r, hr⟩
    rw [hr] at herr; cases herr
  · rcases findMin_spec hfm with ⟨c, t, hget2, _⟩
    rw [hget] at hget2; cases hget2
  · rcases findMin_spec hfm with ⟨c2, t, hget2, hact, _⟩
    rw [hget] at hget2
    injection hget2 with hc2
    subst hc2
    have hmem : c ∈ cs := by
      rcases List.getElem?_eq_some_iff.mp hget with ⟨hlt, hg⟩
      exact hg ▸ List.getElem_mem hlt
    rcases (hall c hmem).2 c.currentIndex le_rfl hact with ⟨s, hs, _⟩
    rw [htab] at hs; cases hs
  · rcases findMin_spec hfm with ⟨c2, t, hget2, hact, _⟩
    rw [hget] at hget2
    injection hget2 with hc2
    subst hc2
    have hmem : c ∈ cs := by
      rcases List.getElem?_eq_some_iff.mp hget with ⟨hlt, hg⟩
      exact hg ▸ List.getElem_mem hlt
    rcases (hall c hmem).2 c.currentIndex le_rfl hact with ⟨s2, hs2, hb2⟩
    rw [htab] at hs2
    injection hs2 with hs2
    subst hs2
    exact hb hb2

/-- Under window safety the whole loop never hits the out-of-bounds slice
panic (claim C10's core induction). -/
lemma runLoop_no_panic {fd : List ℕ} :
    ∀ (fuel : ℕ) (cs : List Cursor) (off : ℕ), (∀ x ∈ cs, WindowSafe fd x) →
      ∀ p, runLoop fd fuel cs off ≠ .panicked p := by
  intro fuel
  induction fuel with
  | zero =>
      intro cs off _ p h
      rw [runLoop] at h; cases h
  | succ n ih =>
      intro cs off hall p h
      rw [runLoop] at h
      cases hstep : loopStep fd cs off with
      | finished => rw [hstep] at h; cases h
      | panicked q => exact loopStep_not_panicked hall hstep
      | emit e cs2 off2 =>
          rw [hstep] at h
          obtain ⟨idx, c, s, hfm, hget, htab, hb, he, hcs2, hoff2⟩ := loopStep_emit_inv hstep
          have hall2 : ∀ x ∈ cs2, WindowSafe fd x := hcs2 ▸ windowSafe_set hall hget
          have h2 : (match runLoop fd n cs2 off2 with
              | LoopOut.done rest fin2 => LoopOut.done (e :: rest) fin2
              | o => o) = LoopOut.panicked p := h
          cases hrec : runLoop fd n cs2 off2 with
          | done rest fin2 => rw [hrec] at h2; cases h2
          | fuelOut => rw [hrec] at h2; cases h2
          | panicked q => exact ih cs2 off2 hall2 q hrec

/-- Sum of a mapped list after a positional update, in addition form. -/
lemma mapSum_set {f : Cursor → ℕ} (cs : List Cursor) :
    ∀ (idx : ℕ) (c c' : Cursor), cs[idx]? = some c →
      ((cs.set idx c').map f).sum + f c = (cs.map f).sum + f c' := by
  induction cs with
  | nil => intro idx c c' h; simp at h
  | cons c0 rest ih =>
      intro idx c c' h
      cases idx with
      | zero =>
          rw [List.getElem?_cons_zero] at h
          cases h
          simp [List.set]
          ring
      | succ idx =>
          rw [List.getElem?_cons_succ] at h
          simp only [List.set, List.map_cons, List.sum_cons]
          have := ih idx c c' h
          omega

/-! ### Exact sample counts and termination (claim C7) -/

/-- Samples the cursor still has to emit: end_index - current_index + 1
while active, 0 once exhausted. -/
def remaining (c : Cursor) : ℕ := c.endIndex + 1 - c.currentIndex

/-- Samples all cursors together still have to emit. -/
def totalRemaining (cs : List Cursor) : ℕ := (cs.map remaining).sum

/-- The samples of the output belonging to the k-th registered track. -/
def ofTrack (k : ℕ) (out : List Emitted) : List Emitted :=
  out.filter fun e => e.trackIdx == k

lemma advanceCursor_table (c : Cursor) : (advanceCursor c).table = c.table := rfl

lemma advanceCursor_endIndex (c : Cursor) : (advanceCursor c).endIndex = c.endIndex := rfl

lemma advanceCursor_currentIndex (c : Cursor) :
    (advanceCursor c).currentIndex = satAdd1u32 c.currentIndex := rfl

lemma advanceCursor_sampleEntry (c : Cursor) : (advanceCursor c).sampleEntry = c.sampleEntry := rfl

lemma ofTrack_cons_self {k : ℕ} {e : Emitted} {out : List Emitted} (h : e.trackIdx = k) :
    ofTrack k (e :: out) = e :: ofTrack k out := by
  unfold ofTrack
  rw [List.filter_cons_of_pos]
  simpa using h

lemma ofTrack_cons_other {k : ℕ} {e : Emitted} {out : List Emitted} (h : e.trackIdx ≠ k) :
    ofTrack k (e :: out) = ofTrack k out := by
  unfold ofTrack
  rw [List.filter_cons_of_neg]
  simpa using h

/-- Main induction for claim C7: with window-safe cursors whose end
indices lie strictly below u32::MAX and enough fuel, the interleave loop
terminates normally and each track contributes exactly its window's
sample count. -/
lemma runLoop_counts {fd : List ℕ} :
    ∀ (fuel : ℕ) (cs : List Cursor) (off : ℕ),
      (∀ x ∈ cs, WindowSafe fd x) →
      (∀ x ∈ cs, x.endIndex < U32MAX) →
      totalRemaining cs < fuel →
      ∃ (out : List Emitted) (fin : ℕ), runLoop fd fuel cs off = .done out fin ∧
        ∀ (k : ℕ) (c : Cursor), cs[k]? = some c → (ofTrack k out).length = remaining c := by
  intro fuel
  induction fuel with
  | zero => intro cs off _ _ hlt; omega
  | succ n ih =>
      intro cs off hsafe hend hfuel
      by_cases hact : ∀ c ∈ cs, ¬c.active
      · -- all cursors exhausted: the loop breaks at once
        have hfin := @loopStep_eq_finished fd cs off (findMin_all_inactive hact)
        refine ⟨[], off, runLoop_succ_of_finished hfin, ?_⟩
        intro k c hk
        have hmem : c ∈ cs := by
          rcases List.getElem?_eq_some_iff.mp hk with ⟨hlt, hg⟩
          exact hg ▸ List.getElem_mem hlt
        have : ¬c.active := hact c hmem
        unfold Cursor.active at this
        unfold remaining ofTrack
        simp
        omega
      · -- some cursor is still active: the loop emits
        push_neg at hact
        rcases hact with ⟨c0, hc0mem, hc0act⟩
        rcases List.mem_iff_getElem?.mp hc0mem with ⟨k0, hk0⟩
        rcases findMin_selects (windowSafe_lookup hsafe) ⟨k0, c0, hk0, hc0act⟩ with ⟨r, hfm⟩
        rcases findMin_spec hfm with ⟨c, t, hget, hcact, hnn, _, _, _⟩
        have hcmem : c ∈ cs := by
          rcases List.getElem?_eq_some_iff.mp hget with ⟨hlt, hg⟩
          exact hg ▸ List.getElem_mem hlt
        rcases (hsafe c hcmem).2 c.currentIndex le_rfl hcact with ⟨s, htab, hb⟩
        have hstep := @loopStep_emits fd cs off r c s hfm hget htab hb
        have hrlt : r < cs.length := (List.getElem?_eq_some_iff.mp hget).1
        -- the successor state
        set cs2 := cs.set r (advanceCursor c) with hcs2
        have hcur_lt : c.currentIndex < U32MAX :=
          lt_of_le_of_lt hcact (hend c hcmem)
        have hadv_cur : (advanceCursor c).currentIndex = c.currentIndex + 1 := by
          rw [advanceCursor_currentIndex, satAdd1u32_eq hcur_lt]
        have hrem_adv : remaining (advanceCursor c) + 1 = remaining c := by
          unfold remaining
          rw [hadv_cur, advanceCursor_endIndex]
          unfold Cursor.active at hcact
          omega
        have hsafe2 : ∀ x ∈ cs2, WindowSafe fd x := windowSafe_set hsafe hget
        have hend2 : ∀ x ∈ cs2, x.endIndex < U32MAX := by
          intro x hx
          rcases List.mem_or_eq_of_mem_set hx with hmem | rfl
          · exact hend x hmem
          · rw [advanceCursor_endIndex]; exact hend c hcmem
        have hsum := @mapSum_set remaining cs r c (advanceCursor c) hget
        have hfuel2 : totalRemaining cs2 < n := by
          unfold totalRemaining at hfuel ⊢
          rw [← hcs2] at hsum
          unfold remaining Cursor.active at *
          omega
        rcases ih cs2 ((off + s.dataSize) % U64) hsafe2 hend2 hfuel2 with ⟨rest, fin, hrec, hcount⟩
        refine ⟨emittedOf r c s off :: rest, fin, ?_, ?_⟩
        · rw [runLoop_succ_of_emit hstep, hrec]
        · intro k c' hk
          by_cases hkr : k = r
          · subst hkr
            rw [hget] at hk
            injection hk with hk
            subst hk
            have htrk : (emittedOf k c s off).trackIdx = k := rfl
            rw [ofTrack_cons_self htrk, List.length_cons]
            have hget2 : cs2[k]? = some (advanceCursor c) := by
              rw [hcs2]
              exact List.getElem?_set_self hrlt
            rw [hcount k (advanceCursor c) hget2]
            omega
          · have htrk : (emittedOf r c s off).trackIdx ≠ k := fun hcon => hkr hcon.symm
            rw [ofTrack_cons_other htrk]
            have hget2 : cs2[k]? = some c' := by
              rw [hcs2, List.getElem?_set_ne (fun hcon => hkr hcon.symm)]
              exact hk
            exact hcount k c' hget2

/-! ### Codec descriptor exactly once per track (claim C6) -/

/-- The once-per-track codec descriptor pattern: the first record carries
the descriptor, all later ones carry none. -/
def entryOncePattern (v : ℕ) : List (Option ℕ) → Prop
  | [] => True
  | x :: rest => x = some v ∧ ∀ y ∈ rest, y = none

/-- Main induction for claim C6: a cursor whose first-sample flag is still
set contributes its descriptor on its first emitted sample and none later;
a cursor whose flag is already cleared contributes none at all. -/
lemma runLoop_entry_pattern {fd : List ℕ} :
    ∀ (fuel : ℕ) (cs : List Cursor) (off : ℕ) (out : List Emitted) (fin : ℕ),
      runLoop fd fuel cs off = .done out fin →
      ∀ (k : ℕ) (c : Cursor), cs[k]? = some c →
        (c.isFirstSample = true →
          entryOncePattern c.sampleEntry ((ofTrack k out).map (fun e => e.sampleEntry))) ∧
        (c.isFirstSample = false →
          ∀ y ∈ (ofTrack k out).map (fun e => e.sampleEntry), y = none) := by
  intro fuel
  induction fuel with
  | zero => intro cs off out fin h; rw [runLoop] at h; cases h
  | succ n ih =>
      intro cs off out fin h k c hk
      rcases runLoop_done_inv h with ⟨hfin, rfl, rfl⟩ | ⟨e, cs2, off2, rest, hstep, hrec, rfl⟩
      · constructor <;> intro hflag <;> simp [ofTrack, entryOncePattern]
      · obtain ⟨idx, c0, s, hfm, hget, htab, hb, he, hcs2, hoff2⟩ := loopStep_emit_inv hstep
        subst he hcs2
        have hidxlt : idx < cs.length := (List.getElem?_eq_some_iff.mp hget).1
        by_cases hkr : k = idx
        · subst hkr
          rw [hget] at hk
          injection hk with hk
          subst hk
          have htrk : (emittedOf k c0 s off).trackIdx = k := rfl
          rw [ofTrack_cons_self htrk]
          have hget2 : (cs.set k (advanceCursor c0))[k]? = some (advanceCursor c0) :=
            List.getElem?_set_self hidxlt
          have hrestnone : ∀ y ∈ (ofTrack k rest).map (fun e => e.sampleEntry), y = none :=
            (ih _ _ _ _ hrec k (advanceCursor c0) hget2).2 rfl
          constructor
          · intro hfirst
            show entryOncePattern c0.sampleEntry
              ((emittedOf k c0 s off).sampleEntry :: (ofTrack k rest).map (fun e => e.sampleEntry))
            refine ⟨?_, hrestnone⟩
            show (if c0.isFirstSample then some c0.sampleEntry else none) = some c0.sampleEntry
            rw [hfirst]
            rfl
          · intro hfirst
            intro y hy
            rw [List.map_cons] at hy
            rcases List.mem_cons.mp hy with rfl | hy
            · show (if c0.isFirstSample then some c0.sampleEntry else none) = none
              rw [hfirst]
              rfl
            · exact hrestnone y hy
        · have htrk : (emittedOf idx c0 s off).trackIdx ≠ k := fun hcon => hkr hcon.symm
          rw [ofTrack_cons_other htrk]
          have hget2 : (cs.set idx (advanceCursor c0))[k]? = some c := by
            rw [List.getElem?_set_ne (fun hcon => hkr hcon.symm)]
            exact hk
          exact ih _ _ _ _ hrec k c hget2

/-! ### First emitted sample of a track (claim C3, loop part) -/

/-- The first sample the loop emits for the k-th registered track is the
sample its cursor initially points at. -/
lemma runLoop_first_of_track {fd : List ℕ} :
    ∀ (fuel : ℕ) (cs : List Cursor) (off : ℕ) (out : List Emitted) (fin : ℕ),
      runLoop fd fuel cs off = .done out fin →
      ∀ (k : ℕ) (c : Cursor), cs[k]? = some c →
        ∀ e, (ofTrack k out).head? = some e →
          ∃ s, c.table c.currentIndex = some s ∧ e.keyframe = s.isSync ∧
            e.srcTimestamp = s.timestamp := by
  intro fuel
  induction fuel with
  | zero => intro cs off out fin h; rw [runLoop] at h; cases h
  | succ n ih =>
      intro cs off out fin h k c hk e0 hhead
      rcases runLoop_done_inv h with ⟨hfin, rfl, rfl⟩ | ⟨e, cs2, off2, rest, hstep, hrec, rfl⟩
      · simp [ofTrack] at hhead
      · obtain ⟨idx, c0, s, hfm, hget, htab, hb, he, hcs2, hoff2⟩ := loopStep_emit_inv hstep
        subst he hcs2
        by_cases hkr : k = idx
        · subst hkr
          rw [hget] at hk
          injection hk with hk
          subst hk
          have htrk : (emittedOf k c0 s off).trackIdx = k := rfl
          rw [ofTrack_cons_self htrk, List.head?_cons] at hhead
          injection hhead with hhead
          subst hhead
          exact ⟨s, htab, rfl, rfl⟩
        · have htrk : (emittedOf idx c0 s off).trackIdx ≠ k := fun hcon => hkr hcon.symm
          rw [ofTrack_cons_other htrk] at hhead
          have hget2 : (cs.set idx (advanceCursor c0))[k]? = some c := by
            rw [List.getElem?_set_ne (fun hcon => hkr hcon.symm)]
            exact hk
          exact ih _ _ _ _ hrec k c hget2 e0 hhead

/-! ### Offset accounting (claim C2) -/

/-- Contiguity of the written byte ranges: each record's output offset is
exactly the end of the previous record's range, starting from off0. -/
def offsetsContiguous (off0 : ℕ) : List Emitted → Prop
  | [] => True
  | e :: rest => e.dataOffset = off0 ∧ offsetsContiguous (off0 + e.dataSize) rest

/-- Main induction for claim C2: as long as the total number of bytes
written stays below 2^64 (so that the u64 offset counter does not wrap),
the emitted records' offsets are contiguous from the starting offset and
the final offset is the starting offset plus the sum of the sizes. -/
lemma runLoop_offsets {fd : List ℕ} :
    ∀ (fuel : ℕ) (cs : List Cursor) (off : ℕ) (out : List Emitted) (fin : ℕ),
      runLoop fd fuel cs off = .done out fin →
      off + (out.map (fun e => e.dataSize)).sum < U64 →
      offsetsContiguous off out ∧ fin = off + (out.map (fun e => e.dataSize)).sum := by
  intro fuel
  induction fuel with
  | zero => intro cs off out fin h; rw [runLoop] at h; cases h
  | succ n ih =>
      intro cs off out fin h hb
      rcases runLoop_done_inv h with ⟨hfin, rfl, rfl⟩ | ⟨e, cs2, off2, rest, hstep, hrec, rfl⟩
      · exact ⟨trivial, by simp⟩
      · obtain ⟨idx, c0, s, hfm, hget, htab, hsl, he, hcs2, hoff2⟩ := loopStep_emit_inv hstep
        subst he hcs2
        have hsize : (emittedOf idx c0 s off).dataSize = s.dataSize := rfl
        rw [List.map_cons, List.sum_cons, hsize] at hb
        have hoff2' : off2 = off + s.dataSize := by
          rw [hoff2, Nat.mod_eq_of_lt (by omega)]
        subst hoff2'
        have hrec2 := ih _ _ _ _ hrec (by omega)
        refine ⟨⟨rfl, ?_⟩, ?_⟩
        · exact hsize ▸ hrec2.1
        · rw [List.map_cons, List.sum_cons, hsize, hrec2.2]
          omega

/-! ### Interleave ordering (claim C1) -/

/-- Hypotheses of the ordering claim for one cursor: the window's samples
exist, their decode timestamps are u64 values at or above the baseline and
non-decreasing in index, and the nanosecond scaling of the baseline
difference does not overflow u64 (the last conjunct is the amendment
forced by the wrapping multiplication in normalize_timestamp). -/
def TsOrderly (c : Cursor) : Prop :=
  c.currentIndex ≤ U32MAX ∧
  (∀ i, c.currentIndex ≤ i → i ≤ c.endIndex → ∃ s, c.table i = some s) ∧
  (∀ i si, c.currentIndex ≤ i → i ≤ c.endIndex → c.table i = some si →
    c.baseTimestamp ≤ si.timestamp ∧ si.timestamp < U64 ∧
    (si.timestamp - c.baseTimestamp) * 1000000000 < U64) ∧
  (∀ i j si sj, c.currentIndex ≤ i → i ≤ j → j ≤ c.endIndex →
    c.table i = some si → c.table j = some sj → si.timestamp ≤ sj.timestamp)

/-- Advancing a cursor shrinks its window, so the ordering hypotheses are
stable. -/
lemma tsOrderly_advance {c : Cursor} (h : TsOrderly c) : TsOrderly (advanceCursor c) := by
  obtain ⟨hle, hex, hbase, hmono⟩ := h
  have hge := satAdd1u32_ge_self hle
  refine ⟨?_, ?_, ?_, ?_⟩
  · show satAdd1u32 c.currentIndex ≤ U32MAX
    unfold satAdd1u32; omega
  · intro i h1 h2
    exact hex i (le_trans hge h1) h2
  · intro i si h1 h2 htab
    exact hbase i si (le_trans hge h1) h2 htab
  · intro i j si sj h1 h2 h3 htabi htabj
    exact hmono i j si sj (le_trans hge h1) h2 h3 htabi htabj

/-- Under the ordering hypotheses, the computed (wrapped) normalized
timestamp of the cursor's next sample equals the exact normalized
timestamp of the specification. -/
lemma nextNorm_spec {c : Cursor} {s : SampleInfo} (h : TsOrderly c) (hact : c.active)
    (htab : c.table c.currentIndex = some s) :
    c.nextNorm = some ((s.timestamp - c.baseTimestamp) * 1000000000 / c.timescale) := by
  obtain ⟨_, _, hbase, _⟩ := h
  rcases hbase c.currentIndex s le_rfl hact htab with ⟨hb, hlt, hov⟩
  unfold Cursor.nextNorm
  rw [htab]
  show some (normalize_timestamp (u64sub s.timestamp c.baseTimestamp) c.timescale) = _
  congr 1
  unfold normalize_timestamp
  rw [u64sub_eq_sub hb hlt, Nat.mod_eq_of_lt hov]

/-- Exact normalized timestamps are monotone in the decode timestamp. -/
lemma specnorm_mono {t1 t2 b m d : ℕ} (h : t1 ≤ t2) :
    (t1 - b) * m / d ≤ (t2 - b) * m / d :=
  Nat.div_le_div_right (Nat.mul_le_mul_right m (Nat.sub_le_sub_right h b))

/-- Main induction for claim C1: if every cursor satisfies the ordering
hypotheses and every active cursor's next normalized timestamp is at least
the bound, a completed loop run emits records whose exact normalized
timestamps are bounded below and monotonically non-decreasing. -/
lemma runLoop_sorted {fd : List ℕ} :
    ∀ (fuel : ℕ) (cs : List Cursor) (off bound : ℕ) (out : List Emitted) (fin : ℕ),
      (∀ x ∈ cs, TsOrderly x) →
      (∀ (k : ℕ) (c : Cursor) (t : ℕ), cs[k]? = some c → c.active →
        c.nextNorm = some t → bound ≤ t) →
      runLoop fd fuel cs off = .done out fin →
      (∀ e ∈ out, bound ≤ specNormalizedTs e) ∧
      List.Chain' (fun a b => specNormalizedTs a ≤ specNormalizedTs b) out := by
  intro fuel
  induction fuel with
  | zero => intro cs off bound out fin _ _ h; rw [runLoop] at h; cases h
  | succ n ih =>
      intro cs off bound out fin hord hbound h
      rcases runLoop_done_inv h with ⟨hfin, rfl, rfl⟩ | ⟨e, cs2, off2, rest, hstep, hrec, rfl⟩
      · exact ⟨by simp, List.chain'_nil⟩
      · obtain ⟨idx, c, s, hfm, hget, htab, hb, he, hcs2, hoff2⟩ := loopStep_emit_inv hstep
        subst he hcs2
        have hidxlt : idx < cs.length := (List.getElem?_eq_some_iff.mp hget).1
        have hcmem : c ∈ cs := by
          rcases List.getElem?_eq_some_iff.mp hget with ⟨hlt, hg⟩
          exact hg ▸ List.getElem_mem hlt
        have hordc := hord c hcmem
        rcases findMin_spec hfm with ⟨c, t, hget1, hact, hnn, _, hbefore, hafter⟩
        rw [hget] at hget1
        injection hget1 with hc1
        subst hc1
        have hspec := nextNorm_spec hordc hact htab
        rw [hnn] at hspec
        injection hspec with hspec
        have hespec : specNormalizedTs (emittedOf idx c s off) =
            (s.timestamp - c.baseTimestamp) * 1000000000 / c.timescale := rfl
        have het : specNormalizedTs (emittedOf idx c s off) = t := by
          rw [hespec, ← hspec]
        -- the ordering hypotheses survive the step
        have hord2 : ∀ x ∈ cs.set idx (advanceCursor c), TsOrderly x := by
          intro x hx
          rcases List.mem_or_eq_of_mem_set hx with hmem | rfl
          · exact hord x hmem
          · exact tsOrderly_advance hordc
        -- the emitted timestamp bounds every later active cursor
        have hbound2 : ∀ (k : ℕ) (c' : Cursor) (t' : ℕ),
            (cs.set idx (advanceCursor c))[k]? = some c' → c'.active →
            c'.nextNorm = some t' → t ≤ t' := by
          intro k c' t' hk hact' hnn'
          by_cases hkr : k = idx
          · subst hkr
            rw [List.getElem?_set_self hidxlt] at hk
            injection hk with hk
            subst hk
            -- the advanced cursor's next sample is one step further in the
            -- same window, so its timestamp is at least the emitted one
            have hadv_act : satAdd1u32 c.currentIndex ≤ c.endIndex := hact'
            have hge := satAdd1u32_ge_self hordc.1
            rcases hordc.2.1 (satAdd1u32 c.currentIndex) hge hadv_act with ⟨s2, htab2⟩
            have hnn2 := nextNorm_spec (tsOrderly_advance hordc) hact' (by
              rw [advanceCursor_table]; exact htab2)
            rw [hnn'] at hnn2
            injection hnn2 with hnn2
            have hts : s.timestamp ≤ s2.timestamp :=
              hordc.2.2.2 c.currentIndex (satAdd1u32 c.currentIndex) s s2
                le_rfl hge hadv_act htab htab2
            rw [hnn2, hspec]
            show (s.timestamp - c.baseTimestamp) * 1000000000 / c.timescale ≤
              (s2.timestamp - (advanceCursor c).baseTimestamp) * 1000000000 /
                (advanceCursor c).timescale
            exact specnorm_mono hts
          · rw [List.getElem?_set_ne (fun hcon => hkr hcon.symm)] at hk
            rcases Nat.lt_or_ge k idx with hlt | hge
            · exact le_of_lt (hbefore k c' t' hlt hk hact' hnn')
            · have : idx < k := lt_of_le_of_ne hge (fun hcon => hkr hcon.symm)
              exact hafter k c' t' this hk hact' hnn'
        have hrec2 := ih _ _ t _ _ hord2 hbound2 hrec
        have hboundt : bound ≤ t := hbound idx c t hget hact hnn
        refine ⟨?_, ?_⟩
        · intro e' he'
          rcases List.mem_cons.mp he' with rfl | he'
          · rw [het]; exact hboundt
          · exact le_trans hboundt (hrec2.1 e' he')
        · rw [List.chain'_cons']
          refine ⟨?_, hrec2.2⟩
          intro y hy
          rw [het]
          exact hrec2.1 y (List.mem_of_mem_head? hy)

/-! ### Sample-table and window lemmas -/

/-- A nonempty table's last sample exists. -/
lemma getSample_length {table : List SampleInfo} (h : table ≠ []) :
    ∃ s, getSample table table.length = some s := by
  unfold getSample
  have hlen : table.length ≠ 0 := by simpa using h
  rw [if_neg hlen]
  have hlt : table.length - 1 < table.length := by omega
  exact ⟨table[table.length - 1], List.getElem?_eq_getElem hlt⟩

/-- Inversion: a found sync sample is a sync sample at or before the query
index, and no later sample up to the query index is a sync sample (it is
the nearest preceding one). -/
lemma syncSample_some_spec (table : List SampleInfo) :
    ∀ (i j : ℕ) (sj : SampleInfo), syncSample table i = some (j, sj) →
      1 ≤ j ∧ j ≤ i ∧ getSample table j = some sj ∧ sj.isSync = true ∧
      ∀ (j' : ℕ) (s' : SampleInfo), j < j' → j' ≤ i → getSample table j' = some s' →
        s'.isSync = false := by
  intro i
  induction i with
  | zero => intro j sj h; simp [syncSample] at h
  | succ i ih =>
      intro j sj h
      unfold syncSample at h
      cases hget : getSample table (i + 1) with
      | none => rw [hget] at h; cases h
      | some s =>
          rw [hget] at h
          have h2 : (if s.isSync = true then some (i + 1, s) else syncSample table i) =
              some (j, sj) := h
          by_cases hs : s.isSync = true
          · rw [if_pos hs] at h2
            injection h2 with h2
            injection h2 with h1 h3
            subst h1
            subst h3
            exact ⟨by omega, le_rfl, hget, hs, fun j' s' h1 h2 _ => absurd h1 (by omega)⟩
          · rw [if_neg hs] at h2
            rcases ih j sj h2 with ⟨hj1, hj2, hjs, hsync, hnone⟩
            refine ⟨hj1, by omega, hjs, hsync, ?_⟩
            intro j' s' h1 h2 hg
            rcases Nat.lt_or_ge j' (i + 1) with hlt | hge
            · exact hnone j' s' h1 (by omega) hg
            · have : j' = i + 1 := by omega
              subst this
              rw [hget] at hg
              injection hg with hg
              subst hg
              simpa using hs

/-- When no sample at or before the index is a sync sample, the backward
scan fails. -/
lemma syncSample_none_of_nosync (table : List SampleInfo) :
    ∀ (i : ℕ),
      (∀ (j : ℕ) (s' : SampleInfo), 1 ≤ j → j ≤ i → getSample table j = some s' →
        s'.isSync = false) →
      syncSample table i = none := by
  intro i
  induction i with
  | zero => intro _; rfl
  | succ i ih =>
      intro h
      unfold syncSample
      cases hget : getSample table (i + 1) with
      | none => rfl
      | some s =>
          have hfalse : s.isSync = false := h (i + 1) s (by omega) le_rfl hget
          show (if s.isSync = true then some (i + 1, s) else syncSample table i) = none
          rw [if_neg (by simp [hfalse])]
          exact ih (fun j s' h1 h2 hg => h j s' h1 (by omega) hg)

/-- The end-sample lookup fails exactly on the empty table (claim C4). -/
lemma findEndSample_none_iff (table : List SampleInfo) (tick : ℕ) :
    findEndSample table tick = none ↔ table = [] := by
  constructor
  · intro h
    unfold findEndSample at h
    cases hts : getSampleByTimestamp table tick with
    | some p => rw [hts] at h; cases h
    | none =>
        rw [hts] at h
        by_cases hlen : table.length = 0
        · exact List.length_eq_zero.mp hlen
        · rw [if_neg hlen] at h
          have hne : table ≠ [] := by
            intro hcon
            rw [hcon] at hlen
            exact hlen rfl
          rcases getSample_length hne with ⟨s, hs⟩
          have h2 : Option.map (fun s => (table.length, s)) (getSample table table.length) =
              none := h
          rw [hs] at h2
          cases h2
  · intro h
    subst h
    rfl

/-- When no sample covers or follows the end tick, the lookup falls back
to the track's last sample instead of failing (claim C4). -/
lemma findEndSample_fallback {table : List SampleInfo} {tick : ℕ}
    (hnone : getSampleByTimestamp table tick = none) (hne : table ≠ []) :
    ∃ s, findEndSample table tick = some (table.length, s) ∧
      getSample table table.length = some s := by
  unfold findEndSample
  rw [hnone]
  have hlen : ¬table.length = 0 := by simpa using hne
  rw [if_neg hlen]
  rcases getSample_length hne with ⟨s, hs⟩
  rw [hs]
  exact ⟨s, rfl, rfl⟩

/-- Inversion of a successful per-track window computation. -/
lemma computeTrackInfo_ok_inv {startSec endSec : ℚ} {kind : TrackKind} {timescale : ℕ}
    {table : List SampleInfo} {info : TrackExtractInfo}
    (h : computeTrackInfo startSec endSec kind timescale table = .ok info) :
    ∃ (p actual : ℕ × SampleInfo) (q : ℕ × SampleInfo),
      getSampleByTimestamp table (toTick startSec timescale) = some p ∧
      resolveStartSample kind table p = .ok actual ∧
      findEndSample table (toTick endSec timescale) = some q ∧
      info = mkTrackInfo kind timescale table actual q.1 := by
  unfold computeTrackInfo at h
  cases hstart : getSampleByTimestamp table (toTick startSec timescale) with
  | none => rw [hstart] at h; cases h
  | some p =>
      rw [hstart] at h
      have h2 : (match resolveStartSample kind table p with
          | .error e => (.error e : Except ExtractError TrackExtractInfo)
          | .ok actual =>
              computeTrackInfoEnd kind timescale table actual (toTick endSec timescale)) =
          .ok info := h
      cases hres : resolveStartSample kind table p with
      | error e => rw [hres] at h2; cases h2
      | ok actual =>
          rw [hres] at h2
          unfold computeTrackInfoEnd at h2
          cases hend : findEndSample table (toTick endSec timescale) with
          | none => rw [hend] at h2; cases h2
          | some q =>
              rw [hend] at h2
              injection h2 with h2
              exact ⟨p, actual, q, rfl, hres, rfl, h2.symm⟩

/-- For a video track, a successful start resolution is the sync-sample
scan's result. -/
lemma resolveStartSample_video_inv {table : List SampleInfo} {p actual : ℕ × SampleInfo}
    (h : resolveStartSample TrackKind.video table p = .ok actual) :
    syncSample table p.1 = some actual := by
  unfold resolveStartSample at h
  rw [if_pos rfl] at h
  cases hs : syncSample table p.1 with
  | none => rw [hs] at h; cases h
  | some q =>
      rw [hs] at h
      injection h with h
      rw [h]

/-- For a video track, a missing preceding sync sample aborts the window
computation with the no-preceding-keyframe error. -/
lemma computeTrackInfo_video_nokeyframe {startSec endSec : ℚ} {timescale : ℕ}
    {table : List SampleInfo} {p : ℕ × SampleInfo}
    (hstart : getSampleByTimestamp table (toTick startSec timescale) = some p)
    (hsync : syncSample table p.1 = none) :
    computeTrackInfo startSec endSec TrackKind.video timescale table =
      .error .noPrecedingKeyframe := by
  unfold computeTrackInfo
  rw [hstart]
  show (match resolveStartSample TrackKind.video table p with
      | .error e => (.error e : Except ExtractError TrackExtractInfo)
      | .ok actual =>
          computeTrackInfoEnd TrackKind.video timescale table actual
            (toTick endSec timescale)) = _
  unfold resolveStartSample
  rw [if_pos rfl, hsync]

/-- The window computation reports the end-lookup error only for an empty
table. -/
lemma computeTrackInfo_endErr_inv {startSec endSec : ℚ} {kind : TrackKind}
    {timescale : ℕ} {table : List SampleInfo}
    (h : computeTrackInfo startSec endSec kind timescale table = .error .noSampleAtEndTime) :
    table = [] := by
  unfold computeTrackInfo at h
  cases hstart : getSampleByTimestamp table (toTick startSec timescale) with
  | none => rw [hstart] at h; cases h
  | some p =>
      rw [hstart] at h
      have h2 : (match resolveStartSample kind table p with
          | .error e => (.error e : Except ExtractError TrackExtractInfo)
          | .ok actual =>
              computeTrackInfoEnd kind timescale table actual (toTick endSec timescale)) =
          .error .noSampleAtEndTime := h
      cases hres : resolveStartSample kind table p with
      | error e =>
          rw [hres] at h2
          injection h2 with h2
          subst h2
          exfalso
          unfold resolveStartSample at hres
          by_cases hk : kind = TrackKind.video
          · rw [if_pos hk] at hres
            cases hs : syncSample table p.1 with
            | none => rw [hs] at hres; cases hres
            | some q => rw [hs] at hres; cases hres
          · rw [if_neg hk] at hres; cases hres
      | ok actual =>
          rw [hres] at h2
          unfold computeTrackInfoEnd at h2
          cases hend : findEndSample table (toTick endSec timescale) with
          | none => exact (findEndSample_none_iff table _).mp hend
          | some q => rw [hend] at h2; cases h2

/-! ### Pipeline inversion -/

/-- Inversion of a successful end-to-end extraction: the input was valid,
every track's window was computed, at least one track was found, and the
interleave loop ran to completion starting the offset at the placeholder
length. -/
lemma runExtract_ok_inv {startSec endSec : ℚ} {tracks : List RawTrack}
    {fileData initialBytes : List ℕ} {fuel : ℕ} {evs : List IOEvent}
    {out : List Emitted} {fin : ℕ}
    (h : runExtract startSec endSec tracks fileData initialBytes fuel = (evs, .ok out fin)) :
    ∃ infos, collectTrackInfos startSec endSec tracks = .ok infos ∧ infos ≠ [] ∧
      runLoop fileData fuel (infos.map mkCursor) initialBytes.length = .done out fin := by
  unfold runExtract at h
  by_cases h1 : startSec < 0
  · rw [if_pos h1] at h
    injection h with h2 h3
    cases h3
  · rw [if_neg h1] at h
    by_cases h2 : endSec ≤ startSec
    · rw [if_pos h2] at h
      injection h with h3 h4
      cases h4
    · rw [if_neg h2] at h
      unfold runExtractValidated at h
      cases hc : collectTrackInfos startSec endSec tracks with
      | error e =>
          rw [hc] at h
          injection h with h3 h4
          cases h4
      | ok infos =>
          rw [hc] at h
          have hL : runExtractLoop fileData initialBytes fuel infos = (evs, .ok out fin) := h
          unfold runExtractLoop at hL
          by_cases hemp : infos.isEmpty
          · rw [if_pos hemp] at hL
            injection hL with h3 h4
            cases h4
          · rw [if_neg hemp] at hL
            cases hrl : runLoop fileData fuel (infos.map mkCursor) initialBytes.length with
            | done out2 fin2 =>
                rw [hrl] at hL
                injection hL with h3 h4
                injection h4 with h5 h6
                subst h5
                subst h6
                exact ⟨infos, rfl, by simpa using hemp, hrl⟩
            | panicked p =>
                rw [hrl] at hL
                injection hL with h3 h4
                cases h4
            | fuelOut =>
                rw [hrl] at hL
                injection hL with h3 h4
                cases h4

/-- Contiguous offsets are in particular non-decreasing. -/
lemma offsetsContiguous_mono :
    ∀ (out : List Emitted) (off0 : ℕ), offsetsContiguous off0 out →
      List.Chain' (fun a b => a.dataOffset ≤ b.dataOffset) out := by
  intro out
  induction out with
  | nil => intro off0 _; exact List.chain'_nil
  | cons e rest ih =>
      intro off0 h
      obtain ⟨he, hrest⟩ := h
      rw [List.chain'_cons']
      refine ⟨?_, ih _ hrest⟩
      intro y hy
      have hymem := List.mem_of_mem_head? hy
      -- the head of rest has offset off0 + e.dataSize ≥ e.dataOffset
      cases rest with
      | nil => simp at hy
      | cons e2 rest2 =>
          rw [List.head?_cons] at hy
          injection hy with hy
          subst hy
          obtain ⟨he2, _⟩ := hrest
          omega

/-! ### Claim theorems -/

/-- C8: if start_sec < 0 or end_sec <= start_sec, the extract command
fails with a validation error before any file I/O is performed — the
returned event trace is empty, so the input file is never opened or read
and the output file is never created or touched. -/
theorem c8_validation_before_io (startSec endSec : ℚ) (tracks : List RawTrack)
    (fileData initialBytes : List ℕ) (fuel : ℕ)
    (h : startSec < 0 ∨ endSec ≤ startSec) :
    ∃ er, runExtract startSec endSec tracks fileData initialBytes fuel = ([], .error er) ∧
      (er = .startNegative ∨ er = .endNotAfterStart) := by
  unfold runExtract
  by_cases h1 : startSec < 0
  · rw [if_pos h1]
    exact ⟨.startNegative, rfl, .inl rfl⟩
  · rcases h with h | h
    · exact absurd h h1
    · rw [if_neg h1, if_pos h]
      exact ⟨.endNotAfterStart, rfl, .inr rfl⟩

/-- Witness for C8 at the concrete invalid range start = 2, end = 1. -/
theorem c8_witness :
    ∃ er, runExtract 2 1 [] [] [] 5 = ([], .error er) ∧
      (er = .startNegative ∨ er = .endNotAfterStart) :=
  c8_validation_before_io 2 1 [] [] [] 5 (.inr (by norm_num))

/-- C10: under the precondition that every sample in every cursor's window
has its byte range inside the in-memory source buffer, the unchecked slice
file_data[data_offset .. data_offset + data_size] always succeeds: the
out-of-bounds panic branch of the interleave loop is unreachable. -/
theorem c10_slice_in_bounds (fd : List ℕ) (fuel : ℕ) (cs : List Cursor) (off : ℕ)
    (hsafe : ∀ x ∈ cs, WindowSafe fd x) :
    runLoop fd fuel cs off ≠ .panicked .sliceOutOfBounds :=
  runLoop_no_panic fuel cs off hsafe .sliceOutOfBounds

/-- Sample table used by several witnesses: two samples of one byte each,
both sync, timestamps 0 and 1, byte ranges [0,1) and [1,2). -/
def wTable : List SampleInfo :=
  [⟨0, 1, true, 0, 1, 5⟩, ⟨1, 1, true, 1, 1, 5⟩]

/-- Cursor over wTable used by several witnesses. -/
def wCursor : Cursor :=
  { trackKind := .audio
    timescale := 1
    sampleEntry := 5
    endIndex := 2
    baseTimestamp := 0
    table := tableFun wTable
    currentIndex := 1
    isFirstSample := true }

lemma wCursor_windowSafe : ∀ x ∈ [wCursor], WindowSafe [0, 0] x := by
  intro x hx
  rcases List.mem_singleton.mp hx with rfl
  refine ⟨by norm_num [wCursor, U32MAX], ?_⟩
  intro i h1 h2
  have hi : i = 1 ∨ i = 2 := by
    simp only [wCursor] at h1 h2
    omega
  rcases hi with rfl | rfl
  · exact ⟨⟨0, 1, true, 0, 1, 5⟩, rfl, by norm_num⟩
  · exact ⟨⟨1, 1, true, 1, 1, 5⟩, rfl, by norm_num⟩

/-- Witness for C10 at a concrete two-sample window inside a two-byte
source buffer. -/
theorem c10_witness :
    runLoop [0, 0] 3 [wCursor] 0 ≠ .panicked .sliceOutOfBounds :=
  c10_slice_in_bounds [0, 0] 3 [wCursor] 0 wCursor_windowSafe

/-- C7 (amended): when every window sample exists with its byte range in
the source buffer and every end index lies strictly below u32::MAX, the
interleave loop terminates given fuel beyond the total remaining sample
count, and each track emits exactly end_index - current_index + 1 samples
(its full window).  The u32::MAX bound is the amendment: at
end_index = u32::MAX the saturating index increment can never pass the
end index and the loop does not terminate (see the counterexample). -/
theorem c7_termination_exact_counts (fd : List ℕ) (fuel : ℕ) (cs : List Cursor) (off : ℕ)
    (hsafe : ∀ x ∈ cs, WindowSafe fd x)
    (hend : ∀ x ∈ cs, x.endIndex < U32MAX)
    (hfuel : totalRemaining cs < fuel) :
    ∃ (out : List Emitted) (fin : ℕ), runLoop fd fuel cs off = .done out fin ∧
      ∀ (k : ℕ) (c : Cursor), cs[k]? = some c →
        (ofTrack k out).length = remaining c :=
  runLoop_counts fuel cs off hsafe hend hfuel

/-- Witness for C7 at the concrete two-sample window. -/
theorem c7_witness :
    ∃ (out : List Emitted) (fin : ℕ), runLoop [0, 0] 3 [wCursor] 0 = .done out fin ∧
      ∀ (k : ℕ) (c : Cursor), [wCursor][k]? = some c →
        (ofTrack k out).length = remaining c :=
  c7_termination_exact_counts [0, 0] 3 [wCursor] 0 wCursor_windowSafe
    (by intro x hx; rcases List.mem_singleton.mp hx with rfl; norm_num [wCursor, U32MAX])
    (by norm_num [totalRemaining, remaining, wCursor])

/-- A cursor whose window ends exactly at u32::MAX: the saturating index
increment of line 240 can never push the current index past the end
index, so the cursor is never exhausted. -/
def stuckCursor (first : Bool) : Cursor :=
  { trackKind := .audio
    timescale := 1
    sampleEntry := 0
    endIndex := U32MAX
    baseTimestamp := 0
    table := fun _ => some ⟨0, 0, false, 0, 0, 0⟩
    currentIndex := U32MAX
    isFirstSample := first }

lemma advance_stuckCursor (first : Bool) :
    advanceCursor (stuckCursor first) = stuckCursor false := by
  unfold advanceCursor stuckCursor satAdd1u32
  simp

lemma stuckCursor_step (first : Bool) (off : ℕ) :
    loopStep [] [stuckCursor first] off =
      .emit (emittedOf 0 (stuckCursor first) ⟨0, 0, false, 0, 0, 0⟩ off)
        [stuckCursor false] (off % U64) := by
  have hact : (stuckCursor first).currentIndex ≤ (stuckCursor first).endIndex := le_rfl
  have hnn : (stuckCursor first).nextNorm = some 0 := by
    show some (normalize_timestamp (u64sub 0 0) 1) = some 0
    norm_num [normalize_timestamp, u64sub, U64]
  have hfm : findMin [stuckCursor first] = .ok (some 0) := by
    unfold findMin
    rw [findMinAux_cons_lt hact hnn (by norm_num [U64MAX])]
    rfl
  have h := @loopStep_emits [] [stuckCursor first] off 0 (stuckCursor first)
    ⟨0, 0, false, 0, 0, 0⟩ hfm List.getElem?_cons_zero rfl (by norm_num)
  rw [h, advance_stuckCursor]
  simp

/-- The loop never finishes from the stuck cursor, whatever the fuel. -/
lemma runLoop_stuck :
    ∀ (fuel : ℕ) (first : Bool) (off : ℕ) (out : List Emitted) (fin : ℕ),
      runLoop [] fuel [stuckCursor first] off ≠ .done out fin := by
  intro fuel
  induction fuel with
  | zero =>
      intro first off out fin h
      rw [runLoop] at h
      cases h
  | succ n ih =>
      intro first off out fin h
      rw [runLoop_succ_of_emit (stuckCursor_step first off)] at h
      cases hrec : runLoop [] n [stuckCursor false] (off % U64) with
      | done out2 fin2 => exact ih false (off % U64) out2 fin2 hrec
      | panicked p => rw [hrec] at h; cases h
      | fuelOut => rw [hrec] at h; cases h

/-- Counterexample to C7 as stated: the stuck cursor's window is finite
([u32::MAX, u32::MAX], a single sample) and every sample in it exists with
its byte range inside the (empty) source buffer, yet the interleave loop
never terminates, because the saturating increment cannot move the
current index past end_index = u32::MAX. -/
theorem c7_counterexample :
    (stuckCursor true).currentIndex ≤ (stuckCursor true).endIndex ∧
    (∀ i, (stuckCursor true).currentIndex ≤ i → i ≤ (stuckCursor true).endIndex →
      ∃ s, (stuckCursor true).table i = some s ∧
        s.dataOffset + s.dataSize ≤ ([] : List ℕ).length) ∧
    ¬∃ (fuel : ℕ) (out : List Emitted) (fin : ℕ),
      runLoop [] fuel [stuckCursor true] 0 = .done out fin := by
  refine ⟨le_rfl, ?_, ?_⟩
  · intro i _ _
    exact ⟨⟨0, 0, false, 0, 0, 0⟩, rfl, by norm_num⟩
  · rintro ⟨fuel, out, fin, h⟩
    exact runLoop_stuck fuel true 0 out fin h

/-- C5: whenever the i-th registered cursor is active, attains the minimum
computed normalized next timestamp among all active cursors, and every
earlier registered active cursor is strictly above that minimum (so the
i-th track is the first-registered among the tied minima), the scan
selects exactly the i-th cursor — output order under ties is deterministic
by registration order. -/
theorem c5_tie_break_first_registered (cs : List Cursor) (i : ℕ) (ci : Cursor) (t : ℕ)
    (hget : cs[i]? = some ci) (hact : ci.active) (hnn : ci.nextNorm = some t)
    (hvalid : ∀ c ∈ cs, c.active → (c.table c.currentIndex).isSome)
    (hmin : ∀ (k : ℕ) (c : Cursor) (t' : ℕ), cs[k]? = some c → c.active →
      c.nextNorm = some t' → t ≤ t')
    (hfirst : ∀ (k : ℕ) (c : Cursor) (t' : ℕ), k < i → cs[k]? = some c → c.active →
      c.nextNorm = some t' → t < t') :
    findMin cs = .ok (some i) := by
  rcases findMin_selects hvalid ⟨i, ci, hget, hact⟩ with ⟨r, hr⟩
  rcases findMin_spec hr with ⟨c, t2, hget2, hact2, hnn2, _, hbefore, hafter⟩
  rcases Nat.lt_trichotomy r i with hlt | heq | hgt
  · exfalso
    have h1 := hfirst r c t2 hlt hget2 hact2 hnn2
    have h2 := hafter i ci t hlt hget hact hnn
    omega
  · rw [heq] at hr
    exact hr
  · exfalso
    have h1 := hbefore i ci t hgt hget hact hnn
    have h2 := hmin r c t2 hget2 hact2 hnn2
    omega

/-- Second cursor for the C5 witness: same next normalized timestamp as
wCursor (a tie). -/
def wCursorB : Cursor :=
  { trackKind := .video
    timescale := 1
    sampleEntry := 9
    endIndex := 2
    baseTimestamp := 0
    table := tableFun wTable
    currentIndex := 1
    isFirstSample := true }

/-- Witness for C5: two cursors tied at normalized timestamp 0; the
first-registered one is selected. -/
theorem c5_witness : findMin [wCursor, wCursorB] = .ok (some 0) := by
  apply c5_tie_break_first_registered [wCursor, wCursorB] 0 wCursor 0 rfl
    (by norm_num [wCursor, Cursor.active]) (by decide)
  · intro c hc hact
    rcases List.mem_cons.mp hc with rfl | hc
    · decide
    · rcases List.mem_singleton.mp hc with rfl
      decide
  · intro k c t' hk hact hnn
    exact Nat.zero_le t'
  · intro k c t' hk
    omega

/-- C1 (amended): for every valid extraction — each track's decode
timestamps non-decreasing over its window, u64-valued, at or above the
cursor baseline, and with the nanosecond rescaling
(timestamp - baseline) * 10^9 staying below 2^64 (the amendment: the
source multiplies in wrapping u64 arithmetic) — the samples emitted by a
completed interleave loop have monotonically non-decreasing exact
normalized timestamps (timestamp - baseline) * 10^9 / timescale. -/
theorem c1_interleave_ordering (fd : List ℕ) (fuel : ℕ) (cs : List Cursor)
    (off : ℕ) (out : List Emitted) (fin : ℕ)
    (hord : ∀ x ∈ cs, TsOrderly x)
    (h : runLoop fd fuel cs off = .done out fin) :
    List.Chain' (fun a b => specNormalizedTs a ≤ specNormalizedTs b) out :=
  (runLoop_sorted fuel cs off 0 out fin hord (fun _ _ _ _ _ _ => Nat.zero_le _) h).2

lemma wCursor_tsOrderly : ∀ x ∈ [wCursor], TsOrderly x := by
  intro x hx
  rcases List.mem_singleton.mp hx with rfl
  refine ⟨by norm_num [wCursor, U32MAX], ?_, ?_, ?_⟩
  · intro i h1 h2
    have hi : i = 1 ∨ i = 2 := by
      simp only [wCursor] at h1 h2
      omega
    rcases hi with rfl | rfl
    · exact ⟨⟨0, 1, true, 0, 1, 5⟩, rfl⟩
    · exact ⟨⟨1, 1, true, 1, 1, 5⟩, rfl⟩
  · intro i si h1 h2 htab
    have hi : i = 1 ∨ i = 2 := by
      simp only [wCursor] at h1 h2
      omega
    rcases hi with rfl | rfl <;>
      (injection htab with htab; subst htab) <;>
      refine ⟨Nat.zero_le _, ?_, ?_⟩ <;> decide
  · intro i j si sj h1 h2 h3 htabi htabj
    have hi : i = 1 ∨ i = 2 := by
      simp only [wCursor] at h1 h3
      omega
    have hj : j = 1 ∨ j = 2 := by
      simp only [wCursor] at h1 h3
      omega
    rcases hi with rfl | rfl <;> rcases hj with rfl | rfl <;>
      first
      | omega
      | (injection htabi with htabi; injection htabj with htabj;
          subst htabi; subst htabj; decide)

/-- Witness for C1: the two-sample window runs to completion and its
output is sorted. -/
theorem c1_witness :
    ∃ (out : List Emitted) (fin : ℕ), runLoop [0, 0] 3 [wCursor] 0 = .done out fin ∧
      List.Chain' (fun a b => specNormalizedTs a ≤ specNormalizedTs b) out := by
  rcases runLoop_counts 3 [wCursor] 0 wCursor_windowSafe
    (by intro x hx; rcases List.mem_singleton.mp hx with rfl; norm_num [wCursor, U32MAX])
    (by norm_num [totalRemaining, remaining, wCursor]) with ⟨out, fin, hdone, _⟩
  exact ⟨out, fin, hdone, c1_interleave_ordering [0, 0] 3 [wCursor] 0 out fin
    wCursor_tsOrderly hdone⟩

/-- First counterexample track: timestamps 0 and 2^55 (non-decreasing);
at timescale 1 the wrapped nanosecond rescaling of 2^55 is
2^55 * 10^9 mod 2^64 = 0. -/
def ceTableA : List SampleInfo :=
  [⟨0, 1, true, 0, 0, 7⟩, ⟨36028797018963968, 1, true, 0, 0, 7⟩]

/-- Second counterexample track: timestamps 0 and 1 (non-decreasing). -/
def ceTableB : List SampleInfo :=
  [⟨0, 1, true, 0, 0, 8⟩, ⟨1, 1, true, 0, 0, 8⟩]

/-- Cursor over ceTableA, baseline 0, window [1, 2]. -/
def ceCursorA : Cursor :=
  { trackKind := .video
    timescale := 1
    sampleEntry := 7
    endIndex := 2
    baseTimestamp := 0
    table := tableFun ceTableA
    currentIndex := 1
    isFirstSample := true }

/-- Cursor over ceTableB, baseline 0, window [1, 2]. -/
def ceCursorB : Cursor :=
  { trackKind := .audio
    timescale := 1
    sampleEntry := 8
    endIndex := 2
    baseTimestamp := 0
    table := tableFun ceTableB
    currentIndex := 1
    isFirstSample := true }

/-- Counterexample to C1 as stated: both tracks have non-decreasing
decode timestamps over their windows and baselines equal to their first
samples' timestamps (a valid extraction in the claim's sense), yet the
completed interleave loop emits samples whose normalized timestamps
(timestamp - baseline) * 10^9 / timescale are NOT monotonically
non-decreasing: the wrapped u64 rescaling of timestamp 2^55 compares as 0,
so the huge sample is scheduled before both remaining small ones. -/
theorem c1_counterexample :
    (∀ (i j : ℕ) (si sj : SampleInfo), i ≤ j → getSample ceTableA i = some si →
      getSample ceTableA j = some sj → si.timestamp ≤ sj.timestamp) ∧
    (∀ (i j : ℕ) (si sj : SampleInfo), i ≤ j → getSample ceTableB i = some si →
      getSample ceTableB j = some sj → si.timestamp ≤ sj.timestamp) ∧
    ceCursorA.baseTimestamp = 0 ∧ ceCursorB.baseTimestamp = 0 ∧
    (∃ (out : List Emitted) (fin : ℕ),
      runLoop [] 5 [ceCursorA, ceCursorB] 0 = .done out fin ∧
      ¬List.Chain' (fun a b => specNormalizedTs a ≤ specNormalizedTs b) out) := by
  refine ⟨?_, ?_, rfl, rfl, ?_⟩
  · intro i j si sj hij hi hj
    unfold getSample ceTableA at hi hj
    by_cases hi0 : i = 0
    · rw [if_pos hi0] at hi; cases hi
    · rw [if_neg hi0] at hi
      by_cases hj0 : j = 0
      · rw [if_pos hj0] at hj; cases hj
      · rw [if_neg hj0] at hj
        have hi2 : i - 1 < 2 := by
          have := (List.getElem?_eq_some_iff.mp hi).1
          simpa using this
        have hj2 : j - 1 < 2 := by
          have := (List.getElem?_eq_some_iff.mp hj).1
          simpa using this
        have hic : i = 1 ∨ i = 2 := by omega
        have hjc : j = 1 ∨ j = 2 := by omega
        rcases hic with rfl | rfl <;> rcases hjc with rfl | rfl <;>
          first
          | omega
          | (injection hi with hi; injection hj with hj; subst hi; subst hj; decide)
  · intro i j si sj hij hi hj
    unfold getSample ceTableB at hi hj
    by_cases hi0 : i = 0
    · rw [if_pos hi0] at hi; cases hi
    · rw [if_neg hi0] at hi
      by_cases hj0 : j = 0
      · rw [if_pos hj0] at hj; cases hj
      · rw [if_neg hj0] at hj
        have hi2 : i - 1 < 2 := by
          have := (List.getElem?_eq_some_iff.mp hi).1
          simpa using this
        have hj2 : j - 1 < 2 := by
          have := (List.getElem?_eq_some_iff.mp hj).1
          simpa using this
        have hic : i = 1 ∨ i = 2 := by omega
        have hjc : j = 1 ∨ j = 2 := by omega
        rcases hic with rfl | rfl <;> rcases hjc with rfl | rfl <;>
          first
          | omega
          | (injection hi with hi; injection hj with hj; subst hi; subst hj; decide)
  · refine ⟨[⟨.video, some 7, true, 1, 1, 0, 0, 0, 0, 0⟩,
      ⟨.video, none, true, 1, 1, 0, 0, 0, 36028797018963968, 0⟩,
      ⟨.audio, some 8, true, 1, 1, 0, 0, 1, 0, 0⟩,
      ⟨.audio, none, true, 1, 1, 0, 0, 1, 1, 0⟩], 0, by decide, ?_⟩
    simp [List.chain'_cons, specNormalizedTs]

/-- C2: in a successful end-to-end extraction whose total written byte
count stays below 2^64 (so the u64 offset counter cannot wrap), the
running offset starts at the length of the muxer's initial placeholder
bytes, each emitted record's data_offset equals the running offset before
its payload is written, the written ranges are contiguous (no gaps, no
overlaps), the offsets never decrease, and the final offset equals the
placeholder length plus the sum of all written sizes. -/
theorem c2_offset_accounting (startSec endSec : ℚ) (tracks : List RawTrack)
    (fileData initialBytes : List ℕ) (fuel : ℕ) (evs : List IOEvent)
    (out : List Emitted) (fin : ℕ)
    (h : runExtract startSec endSec tracks fileData initialBytes fuel = (evs, .ok out fin))
    (hbound : initialBytes.length + (out.map (fun e => e.dataSize)).sum < U64) :
    offsetsContiguous initialBytes.length out ∧
    List.Chain' (fun a b => a.dataOffset ≤ b.dataOffset) out ∧
    fin = initialBytes.length + (out.map (fun e => e.dataSize)).sum := by
  rcases runExtract_ok_inv h with ⟨infos, _, _, hrl⟩
  rcases runLoop_offsets fuel _ _ out fin hrl hbound with ⟨hcont, hfin⟩
  exact ⟨hcont, offsetsContiguous_mono out _ hcont, hfin⟩

/-- C6: when the interleave loop starts with all cursors carrying a set
first-sample flag (as the extraction constructs them), every track's
emitted sample sequence carries some(sample_entry) on exactly its first
sample and none on every later one. -/
theorem c6_entry_exactly_once (fd : List ℕ) (fuel : ℕ) (cs : List Cursor) (off : ℕ)
    (out : List Emitted) (fin : ℕ)
    (h : runLoop fd fuel cs off = .done out fin)
    (hfirst : ∀ c ∈ cs, c.isFirstSample = true) :
    ∀ (k : ℕ) (c : Cursor), cs[k]? = some c →
      entryOncePattern c.sampleEntry ((ofTrack k out).map (fun e => e.sampleEntry)) := by
  intro k c hk
  have hmem : c ∈ cs := by
    rcases List.getElem?_eq_some_iff.mp hk with ⟨hlt, hg⟩
    exact hg ▸ List.getElem_mem hlt
  exact (runLoop_entry_pattern fuel cs off out fin h k c hk).1 (hfirst c hmem)

/-- Witness for C6: the concrete two-sample run carries the descriptor on
the first emitted sample only. -/
theorem c6_witness :
    entryOncePattern 5 ((ofTrack 0
      [⟨.audio, some 5, true, 1, 1, 0, 1, 0, 0, 0⟩,
       ⟨.audio, none, true, 1, 1, 1, 1, 0, 1, 0⟩]).map (fun e => e.sampleEntry)) := by
  have h := c6_entry_exactly_once [0, 0] 3 [wCursor] 0
    [⟨.audio, some 5, true, 1, 1, 0, 1, 0, 0, 0⟩,
     ⟨.audio, none, true, 1, 1, 1, 1, 0, 1, 0⟩] 2
    (by decide) (by intro c hc; rcases List.mem_singleton.mp hc with rfl; rfl) 0 wCursor rfl
  exact h

/-- C3: for a video track, (i) when no sample at or before the sample
covering the start tick is a sync sample, the window computation fails
with the no-preceding-keyframe error; (ii) on success the window's start
index is the nearest sync sample at or before the sample covering the
start tick (it is sync, lies at or before it, and no sample strictly
between is sync); (iii) the first sample the interleave loop emits for
that track is a sync sample (keyframe = true). -/
theorem c3_video_keyframe_snap (startSec endSec : ℚ) (timescale : ℕ)
    (table : List SampleInfo) :
    (∀ p : ℕ × SampleInfo, getSampleByTimestamp table (toTick startSec timescale) = some p →
      (∀ (j : ℕ) (s' : SampleInfo), 1 ≤ j → j ≤ p.1 → getSample table j = some s' →
        s'.isSync = false) →
      computeTrackInfo startSec endSec TrackKind.video timescale table =
        .error .noPrecedingKeyframe) ∧
    (∀ info, computeTrackInfo startSec endSec TrackKind.video timescale table = .ok info →
      ∃ p : ℕ × SampleInfo, getSampleByTimestamp table (toTick startSec timescale) = some p ∧
        1 ≤ info.startSampleIndex ∧ info.startSampleIndex ≤ p.1 ∧
        (∃ sj, getSample table info.startSampleIndex = some sj ∧ sj.isSync = true ∧
          info.startTimestamp = sj.timestamp) ∧
        (∀ (j' : ℕ) (s' : SampleInfo), info.startSampleIndex < j' → j' ≤ p.1 →
          getSample table j' = some s' → s'.isSync = false)) ∧
    (∀ info, computeTrackInfo startSec endSec TrackKind.video timescale table = .ok info →
      ∀ (fd : List ℕ) (fuel : ℕ) (cs : List Cursor) (off k : ℕ)
        (out : List Emitted) (fin : ℕ) (e : Emitted),
        cs[k]? = some (mkCursor info) →
        runLoop fd fuel cs off = .done out fin →
        (ofTrack k out).head? = some e →
        e.keyframe = true) := by
  refine ⟨?_, ?_, ?_⟩
  · intro p hstart hnosync
    exact computeTrackInfo_video_nokeyframe hstart
      (syncSample_none_of_nosync table p.1 hnosync)
  · intro info hok
    rcases computeTrackInfo_ok_inv hok with ⟨p, actual, q, hstart, hres, hend, hinfo⟩
    have hsync := resolveStartSample_video_inv hres
    rcases syncSample_some_spec table p.1 actual.1 actual.2 (by rw [hsync]) with
      ⟨h1, h2, h3, h4, h5⟩
    subst hinfo
    exact ⟨p, hstart, h1, h2, ⟨actual.2, h3, h4, rfl⟩, h5⟩
  · intro info hok fd fuel cs off k out fin e hcs hdone hhead
    rcases computeTrackInfo_ok_inv hok with ⟨p, actual, q, hstart, hres, hend, hinfo⟩
    have hsync := resolveStartSample_video_inv hres
    rcases syncSample_some_spec table p.1 actual.1 actual.2 (by rw [hsync]) with
      ⟨h1, h2, h3, h4, h5⟩
    rcases runLoop_first_of_track fuel cs off out fin hdone k (mkCursor info) hcs e hhead with
      ⟨s, htab, hkey, _⟩
    have htab2 : getSample table actual.1 = some s := by
      subst hinfo
      exact htab
    rw [h3] at htab2
    injection htab2 with htab2
    subst htab2
    rw [hkey]
    exact h4

/-- Witness for C3: a concrete video window over wTable; part (ii) of the
claim instantiated at it. -/
theorem c3_witness :
    ∃ p : ℕ × SampleInfo, getSampleByTimestamp wTable (toTick 0 1) = some p ∧
      1 ≤ (1 : ℕ) ∧ (1 : ℕ) ≤ p.1 ∧
      (∃ sj, getSample wTable 1 = some sj ∧ sj.isSync = true ∧ (0 : ℕ) = sj.timestamp) ∧
      (∀ (j' : ℕ) (s' : SampleInfo), 1 < j' → j' ≤ p.1 →
        getSample wTable j' = some s' → s'.isSync = false) := by
  have hinfo : computeTrackInfo 0 1 TrackKind.video 1 wTable =
      .ok { trackKind := .video, timescale := 1, sampleEntry := 5, startSampleIndex := 1,
            endSampleIndex := 2, startTimestamp := 0, table := wTable } := by
    have h0 : toTick 0 1 = 0 := by norm_num [toTick, U64MAX]
    have h1 : toTick 1 1 = 1 := by norm_num [toTick, U64MAX]
    unfold computeTrackInfo
    rw [h0, h1]
    decide
  exact (c3_video_keyframe_snap 0 1 1 wTable).2.1 _ hinfo

/-- C4: (i) when no sample covers or follows the end tick and the track is
nonempty, the end lookup falls back to the track's last sample index
instead of failing; (ii) the end lookup fails exactly when the track is
empty (sample count 0); (iii) in a successful window computation whose end
tick lies past the track, the window's end index is the last sample index;
(iv) the whole window computation reports the end-lookup failure only for
an empty track. -/
theorem c4_end_clamp (table : List SampleInfo) (tick : ℕ)
    (startSec endSec : ℚ) (kind : TrackKind) (timescale : ℕ) :
    (getSampleByTimestamp table tick = none → table ≠ [] →
      ∃ s, findEndSample table tick = some (table.length, s) ∧
        getSample table table.length = some s) ∧
    (findEndSample table tick = none ↔ table = []) ∧
    (∀ info, computeTrackInfo startSec endSec kind timescale table = .ok info →
      getSampleByTimestamp table (toTick endSec timescale) = none →
      info.endSampleIndex = table.length) ∧
    (computeTrackInfo startSec endSec kind timescale table = .error .noSampleAtEndTime →
      table = []) := by
  refine ⟨fun h1 h2 => findEndSample_fallback h1 h2, findEndSample_none_iff table tick, ?_,
    fun h => computeTrackInfo_endErr_inv h⟩
  intro info hok hnone
  rcases computeTrackInfo_ok_inv hok with ⟨p, actual, q, hstart, hres, hend, hinfo⟩
  have hne : table ≠ [] := by
    intro hcon
    subst hcon
    cases hstart
  rcases findEndSample_fallback hnone hne with ⟨s, hfb, _⟩
  rw [hend] at hfb
  injection hfb with hfb
  subst hinfo
  show q.1 = table.length
  rw [hfb]

/-- Witness for C4: a one-sample track with the end tick far past its end
clamps to sample index 1. -/
theorem c4_witness :
    ∃ s, findEndSample [⟨0, 1, true, 0, 1, 3⟩] 100 = some (1, s) ∧
      getSample [⟨0, 1, true, 0, 1, 3⟩] 1 = some s :=
  (c4_end_clamp [⟨0, 1, true, 0, 1, 3⟩] 100 0 1 .audio 1).1 (by decide) (by decide)

/-- C9 (amended): the start and end ticks are computed by truncating the
products start_sec * timescale and end_sec * timescale toward zero — the
tick is the greatest integer at or below the product (floor), not the
nearest integer: for a nonnegative number of seconds whose floored product
is in u64 range, tick ≤ sec * timescale < tick + 1. -/
theorem c9_tick_truncation (sec : ℚ) (timescale : ℕ) (hpos : 0 ≤ sec)
    (hrange : ⌊sec * (timescale : ℚ)⌋.toNat ≤ U64MAX) :
    ((toTick sec timescale : ℕ) : ℚ) ≤ sec * (timescale : ℚ) ∧
    sec * (timescale : ℚ) < ((toTick sec timescale : ℕ) : ℚ) + 1 := by
  have h0 : (0 : ℚ) ≤ sec * (timescale : ℚ) :=
    mul_nonneg hpos (by positivity)
  have hf0 : 0 ≤ ⌊sec * (timescale : ℚ)⌋ := Int.floor_nonneg.mpr h0
  unfold toTick
  rw [min_eq_left hrange]
  constructor
  · have h := Int.floor_le (sec * (timescale : ℚ))
    rw [show ((⌊sec * (timescale : ℚ)⌋.toNat : ℕ) : ℚ) = (⌊sec * (timescale : ℚ)⌋ : ℚ) by
      exact_mod_cast congrArg (fun z : ℤ => (z : ℚ)) (Int.toNat_of_nonneg hf0)]
    exact h
  · have h := Int.lt_floor_add_one (sec * (timescale : ℚ))
    rw [show ((⌊sec * (timescale : ℚ)⌋.toNat : ℕ) : ℚ) = (⌊sec * (timescale : ℚ)⌋ : ℚ) by
      exact_mod_cast congrArg (fun z : ℤ => (z : ℚ)) (Int.toNat_of_nonneg hf0)]
    exact h

/-- Counterexample to C9 as stated: at start_sec = 1/2 and timescale 3 the
source computes tick (1/2 * 3) as u64 = 1 (truncation), while rounding to
the nearest tick as the specification words it gives 2. -/
theorem c9_counterexample :
    toTick (1/2) 3 = 1 ∧ toTickSpec (1/2) 3 = 2 ∧ toTick (1/2) 3 ≠ toTickSpec (1/2) 3 := by
  have h1 : toTick (1/2) 3 = 1 := by norm_num [toTick, U64MAX]
  have h2 : toTickSpec (1/2) 3 = 2 := by
    norm_num [toTickSpec, round_eq]
    rfl
  exact ⟨h1, h2, by rw [h1, h2]; omega⟩

/-- Witness for C9 at sec = 1/2, timescale = 3: the tick 1 satisfies
1 ≤ 3/2 < 2. -/
theorem c9_witness :
    ((toTick (1/2) 3 : ℕ) : ℚ) ≤ (1/2 : ℚ) * ((3 : ℕ) : ℚ) ∧
    (1/2 : ℚ) * ((3 : ℕ) : ℚ) < ((toTick (1/2) 3 : ℕ) : ℚ) + 1 :=
  c9_tick_truncation (1/2) 3 (by norm_num) (by norm_num [U64MAX])

/-- Concrete end-to-end run for the C2 witness: one audio track over
wTable, a three-byte placeholder, both samples copied. -/
lemma c2wit_run : runExtract 0 1 [⟨some .audio, 1, wTable⟩] [0, 0] [9, 9, 9] 3 =
    (writeEvents ++ [IOEvent.writeSamples, IOEvent.patchOutput],
     .ok [⟨.audio, some 5, true, 1, 1, 3, 1, 0, 0, 0⟩,
          ⟨.audio, none, true, 1, 1, 4, 1, 0, 1, 0⟩] 5) := by
  have hct : computeTrackInfo 0 1 TrackKind.audio 1 wTable =
      .ok { trackKind := .audio, timescale := 1, sampleEntry := 5, startSampleIndex := 1,
            endSampleIndex := 2, startTimestamp := 0, table := wTable } := by
    have h0 : toTick 0 1 = 0 := by norm_num [toTick, U64MAX]
    have h1 : toTick 1 1 = 1 := by norm_num [toTick, U64MAX]
    unfold computeTrackInfo
    rw [h0, h1]
    decide
  have hinfo : collectTrackInfos 0 1 [⟨some .audio, 1, wTable⟩] =
      .ok [{ trackKind := .audio, timescale := 1, sampleEntry := 5, startSampleIndex := 1,
             endSampleIndex := 2, startTimestamp := 0, table := wTable }] := by
    show (match computeTrackInfo 0 1 TrackKind.audio 1 wTable with
        | .error e => (.error e : Except ExtractError (List TrackExtractInfo))
        | .ok info =>
            match collectTrackInfos 0 1 [] with
            | .error e => .error e
            | .ok infos => .ok (info :: infos)) = _
    rw [hct]
    rfl
  unfold runExtract
  rw [if_neg (by norm_num), if_neg (by norm_num)]
  unfold runExtractValidated
  rw [hinfo]
  decide

/-- Witness for C2: the concrete run's offsets start at the placeholder
length 3, are contiguous, never decrease, and end at 5 = 3 + 1 + 1. -/
theorem c2_witness :
    offsetsContiguous 3
      [⟨.audio, some 5, true, 1, 1, 3, 1, 0, 0, 0⟩,
       ⟨.audio, none, true, 1, 1, 4, 1, 0, 1, 0⟩] ∧
    List.Chain' (fun a b => a.dataOffset ≤ b.dataOffset)
      ([⟨.audio, some 5, true, 1, 1, 3, 1, 0, 0, 0⟩,
        ⟨.audio, none, true, 1, 1, 4, 1, 0, 1, 0⟩] : List Emitted) ∧
    (5 : ℕ) = 3 + (([⟨.audio, some 5, true, 1, 1, 3, 1, 0, 0, 0⟩,
      ⟨.audio, none, true, 1, 1, 4, 1, 0, 1, 0⟩] : List Emitted).map
        (fun e => e.dataSize)).sum :=
  c2_offset_accounting 0 1 [⟨some .audio, 1, wTable⟩] [0, 0] [9, 9, 9] 3 _ _ _
    c2wit_run (by norm_num [U64])

end Mp4Extract
